import Mathlib

/-! Engine bridge of chess-stockfish17.

A shallow embedding of the three layers of `src/src/utils`:

* `stockfishBridge.js` — the simulated UCI engine (`StockfishBridge`),
* `chessEngine.js`     — the rules state wrapping the `chess.js` library (`ChessEngine`),
* `chessAI.js`         — the coordinator composing both (`ChessAI`).

JavaScript strings are Lean `String`s and every string operation is computed on the
character list.  `setTimeout` closures are kept as an explicit list of pending timers,
`Math.random()` is an explicit draw, and callbacks handed in by the user interface are
opaque references whose invocations are recorded in the output of each operation.
-/

namespace JS

/-- The class `\s` of JavaScript regular expressions. -/
def isWhiteSpace (c : Char) : Bool :=
  (9 ≤ c.toNat && c.toNat ≤ 13) || c.toNat = 32 || c.toNat = 160 || c.toNat = 5760
    || (8192 ≤ c.toNat && c.toNat ≤ 8202) || c.toNat = 8232 || c.toNat = 8233
    || c.toNat = 8239 || c.toNat = 8287 || c.toNat = 12288 || c.toNat = 65279

/-- The class `\d` of JavaScript regular expressions. -/
def isDigit (c : Char) : Bool :=
  48 ≤ c.toNat && c.toNat ≤ 57

/-- Line terminators, the characters that `.` does not match. -/
def isLineTerminator (c : Char) : Bool :=
  c.toNat = 10 || c.toNat = 13 || c.toNat = 8232 || c.toNat = 8233

/-- The remainder of `s` after the literal `lit`, when `s` begins with it. -/
def dropLiteral : List Char → List Char → Option (List Char)
  | [], s => some s
  | _ :: _, [] => none
  | l :: lit, c :: s => if l = c then dropLiteral lit s else none

/-- The method `String.prototype.startsWith`. -/
def startsWith (s lit : String) : Bool :=
  (dropLiteral lit.data s.data).isSome

/-- The leftmost successful attempt of `f` over the suffixes of the input: the way
`String.prototype.match` tries a pattern at each start index in turn. -/
def firstMatch {α : Type} (f : List Char → Option α) : List Char → Option α
  | [] => f []
  | c :: s =>
    match f (c :: s) with
    | some a => some a
    | none => firstMatch f s

/-- The method `String.prototype.includes`. -/
def includes (s lit : String) : Bool :=
  (firstMatch (dropLiteral lit.data) s.data).isSome

/-- One attempt of a pattern `lit sep+ (cls+)` at the start of the input; the capture is
the longest run of `cls`.  The two classes used are disjoint, so the greedy run of `sep`
never has to give characters back. -/
def matchLitSepRun (lit : List Char) (sep cls : Char → Bool) (s : List Char) :
    Option (List Char) :=
  match dropLiteral lit s with
  | none => none
  | some rest =>
    if (rest.takeWhile sep).isEmpty then none
    else
      let cap := (rest.dropWhile sep).takeWhile cls
      if cap.isEmpty then none else some cap

/-- The call `parseInt(digits, 10)` on a string of decimal digits. -/
def parseInt (digits : List Char) : Nat :=
  digits.foldl (fun acc c => 10 * acc + (c.toNat - 48)) 0

/-- The call `s.split(' ')`: the fields between single spaces, at least one field. -/
def splitSpace : List Char → List (List Char)
  | [] => [[]]
  | c :: s =>
    if c = ' ' then [] :: splitSpace s
    else
      match splitSpace s with
      | [] => [[c]]
      | f :: fs => (c :: f) :: fs

/-- A value of `Math.random()`, a number in `[0, 1)`, given by its numerator over `2^53`. -/
abbrev Draw := Fin 9007199254740992

/-- The index `Math.floor(Math.random() * n)`. -/
def randomIndex (r : Draw) (n : Nat) : Nat :=
  r.val * n / 9007199254740992

end JS

/-- A function reference handed in by a caller (a user-interface closure). -/
abbrev Callback := Nat

/-- The closures that `StockfishBridge` hands to `setTimeout`. -/
inductive TimerKind where
  | uci
  | isready
  | go
  deriving DecidableEq, Repr

/-- A pending `setTimeout` closure with the delay it was armed with, in milliseconds. -/
structure Timer where
  kind : TimerKind
  delay : Nat
  deriving DecidableEq, Repr

/-- The `callbacks` object of the bridge; `none` is an absent (or falsy) entry. -/
structure BridgeCallbacks where
  message : Option Callback
  deriving DecidableEq, Repr

/-- The mutable fields of a `StockfishBridge` and the timers it has armed that have not
fired yet.  The tables `openingMoves`, `fallbackMoves` are never written after
construction and are constants below. -/
structure StockfishBridge where
  callbacks : BridgeCallbacks
  isReady : Bool
  currentPosition : String
  timers : List Timer
  deriving DecidableEq, Repr

namespace StockfishBridge

/-- The own properties of `this.openingMoves`. -/
def openingMoves : List (String × List String) :=
  [ ("rnbqkbnr/pppppppp/8/8/8/8/PPPPPPPP/RNBQKBNR w KQkq - 0 1",
      ["e2e4", "d2d4", "g1f3", "c2c4"]),
    ("rnbqkbnr/pppppppp/8/8/4P3/8/PPPP1PPP/RNBQKBNR b KQkq e3 0 1",
      ["e7e5", "c7c5", "e7e6", "d7d5"]),
    ("rnbqkbnr/pppppppp/8/8/3P4/8/PPP1PPPP/RNBQKBNR b KQkq d3 0 1",
      ["d7d5", "g8f6", "c7c5", "e7e6"]),
    ("rnbqkbnr/pp1ppppp/8/2p5/4P3/8/PPPP1PPP/RNBQKBNR w KQkq c6 0 2",
      ["g1f3", "c2c3", "b1c3", "d2d4"]),
    ("rnbqkbnr/pppp1ppp/4p3/8/4P3/8/PPPP1PPP/RNBQKBNR w KQkq - 0 2",
      ["d2d4", "b1c3", "g1f3", "e4e5"]),
    ("rnbqkbnr/ppp1pppp/8/3p4/2PP4/8/PP2PPPP/RNBQKBNR b KQkq c3 0 2",
      ["e7e6", "c7c6", "g8f6", "d5c4"]),
    ("rnbqkb1r/pppppp1p/5np1/8/3P4/8/PPP1PPPP/RNBQKBNR w KQkq - 0 2",
      ["c2c4", "g1f3", "b1c3", "e2e4"]) ]

/-- The own properties of `this.fallbackMoves`. -/
def fallbackMoves : List (String × List String) :=
  [ ("w", ["e2e4", "d2d4", "g1f3", "b1c3", "c2c4", "f2f4", "e2e3", "d2d3",
           "a2a3", "h2h3", "a2a4", "h2h4", "b2b3", "g2g3"]),
    ("b", ["e7e5", "d7d5", "g8f6", "b8c6", "c7c5", "e7e6", "d7d6", "c7c6",
           "a7a6", "h7h6", "a7a5", "h7h5", "b7b6", "g7g6"]) ]

/-- The properties every object literal inherits from `Object.prototype`, each with the
value of its `length` (`none` when it has none).  All of them are truthy and none has an
indexed element. -/
def objectPrototype : List (String × Option Nat) :=
  [ ("constructor", some 1), ("__defineGetter__", some 2), ("__defineSetter__", some 2),
    ("hasOwnProperty", some 1), ("__lookupGetter__", some 1), ("__lookupSetter__", some 1),
    ("isPrototypeOf", some 1), ("propertyIsEnumerable", some 1), ("toString", some 0),
    ("valueOf", some 0), ("__proto__", none), ("toLocaleString", some 0) ]

/-- The result of reading `table[key]` on an object literal holding arrays of strings. -/
inductive Property where
  | array (moves : List String)
  | inherited (length : Option Nat)
  | undefined
  deriving DecidableEq, Repr

/-- The property read `table[key]`: own properties first, then the prototype. -/
def getProperty (table : List (String × List String)) (key : String) : Property :=
  match table.lookup key with
  | some moves => .array moves
  | none =>
    match objectPrototype.lookup key with
    | some len => .inherited len
    | none => .undefined

/-- The constructor. -/
def new : StockfishBridge :=
  { callbacks := { message := none }, isReady := false, currentPosition := "", timers := [] }

/-- The method `onMessage(callback)`. -/
def onMessage (b : StockfishBridge) (callback : Option Callback) : StockfishBridge :=
  { b with callbacks := { message := callback } }

/-- The method `_handleUCI()`: arms the handshake timer. -/
def handleUCI (b : StockfishBridge) : StockfishBridge :=
  { b with timers := b.timers ++ [{ kind := .uci, delay := 100 }] }

/-- The method `_handleIsReady()`. -/
def handleIsReady (b : StockfishBridge) : StockfishBridge :=
  { b with isReady := true, timers := b.timers ++ [{ kind := .isready, delay := 100 }] }

/-- The match of `/position fen (.*)/`: the capture after the leftmost occurrence of the
literal, up to the first line terminator. -/
def matchPosition (message : String) : Option String :=
  (JS.firstMatch (JS.dropLiteral "position fen ".data) message.data).map
    fun rest => String.mk (rest.takeWhile fun c => !JS.isLineTerminator c)

/-- The method `_handlePosition(message)`. -/
def handlePosition (b : StockfishBridge) (message : String) : StockfishBridge :=
  match matchPosition message with
  | some fen => if fen.data.isEmpty then b else { b with currentPosition := fen }
  | none => b

/-- The match of `/depth\s+(\d+)/`: the first capture group. -/
def matchDepth (message : String) : Option (List Char) :=
  JS.firstMatch (JS.matchLitSepRun "depth".data JS.isWhiteSpace JS.isDigit) message.data

/-- The local `depth` of `_handleGo(message)`.  The value of `parseInt` is exact below
`2^53`; beyond that it is rounded, which the clamp of `thinkTime` hides. -/
def goDepth (message : String) : Nat :=
  if JS.includes message "depth" then
    match matchDepth message with
    | some digits => JS.parseInt digits
    | none => 15
  else 15

/-- The local `thinkTime` of `_handleGo(message)`. -/
def thinkTime (message : String) : Nat :=
  min (300 + goDepth message * 100) 3000

/-- The method `_handleGo(message)`: arms the search timer. -/
def handleGo (b : StockfishBridge) (message : String) : StockfishBridge :=
  { b with timers := b.timers ++ [{ kind := .go, delay := thinkTime message }] }

/-- The method `postMessage(message)`. -/
def postMessage (b : StockfishBridge) (message : String) : StockfishBridge :=
  if message = "uci" then handleUCI b
  else if message = "isready" then handleIsReady b
  else if JS.startsWith message "position fen" then handlePosition b message
  else if JS.startsWith message "go" then handleGo b message
  else b

/-- The second field `fenParts[1]` of the position, or `'w'` when there is none. -/
def currentTurn (b : StockfishBridge) : String :=
  match JS.splitSpace b.currentPosition.data with
  | _ :: turn :: _ => String.mk turn
  | _ => "w"

/-- The method `_calculateBestMove()`; `none` is the value `undefined`. -/
def calculateBestMove (b : StockfishBridge) (r : JS.Draw) : Option String :=
  match getProperty openingMoves b.currentPosition with
  | .array moves => moves[JS.randomIndex r moves.length]?
  | .inherited _ => none
  | .undefined =>
    match getProperty fallbackMoves (currentTurn b) with
    | .array moves =>
      if moves.length > 0 then moves[JS.randomIndex r moves.length]?
      else if currentTurn b = "w" then some "e2e4" else some "e7e5"
    | .inherited (some (_ + 1)) => none
    | _ => if currentTurn b = "w" then some "e2e4" else some "e7e5"

/-- The template literal over a value that may be `undefined`. -/
def render : Option String → String
  | some s => s
  | none => "undefined"

/-- The messages the closure of a timer passes to `_sendMessage`, in order. -/
def timerMessages (b : StockfishBridge) (k : TimerKind) (r : JS.Draw) : List String :=
  match k with
  | .uci => ["id name Stockfish 17 Local", "id author The Stockfish Team", "uciok"]
  | .isready => ["readyok"]
  | .go => ["bestmove " ++ render (calculateBestMove b r)]

/-- The method `_sendMessage(message)` seen from outside: the invocations of the
registered consumer, each with the message it receives. -/
def sendMessage (b : StockfishBridge) (message : String) : List (Callback × String) :=
  match b.callbacks.message with
  | some cb => [(cb, message)]
  | none => []

/-- The method `terminate()`. -/
def terminate (b : StockfishBridge) : StockfishBridge :=
  { b with callbacks := { message := none }, isReady := false }

end StockfishBridge

/-- A move record of `chess.js` (the fields this program reads or passes back).  The same
shape serves for the `{from, to, promotion}` objects that callers pass in. -/
structure Move where
  «from» : String
  «to» : String
  promotion : Option String
  flags : String
  san : String
  deriving DecidableEq, Repr

/-- An argument of `Chess.prototype.move`: a notation string or a move object. -/
inductive MoveArg where
  | str (s : String)
  | obj (m : Move)
  deriving DecidableEq, Repr

/-- The part of the `chess.js` library that `ChessEngine` calls, over the type `β` of the
states of a `Chess` object.  The library is an external dependency and is a parameter
of the development.  A call that throws (or returns `null`) is `none`. -/
structure ChessJs (β : Type) where
  /-- The state of `new Chess()` and of `reset()`. -/
  initial : β
  /-- The state after `load(fen)`, equally of `new Chess(fen)`; `none` when it throws,
  in which case the object is left as it was. -/
  load : String → Option β
  /-- The method `fen()`. -/
  fen : β → String
  /-- The method `moves` called with the option `verbose`. -/
  moves : β → List Move
  /-- The method `move(m)`: the record of the move and the state after it. -/
  move : β → MoveArg → Option (Move × β)

/-- The fields of a `ChessEngine`. -/
structure ChessEngine (β : Type) where
  chess : β
  moveHistory : List Move

namespace ChessEngine

variable {β : Type}

/-- The constructor. -/
def new (lib : ChessJs β) : ChessEngine β :=
  { chess := lib.initial, moveHistory := [] }

/-- The method `setPosition(fen)`. -/
def setPosition (lib : ChessJs β) (e : ChessEngine β) (fen : String) : Bool × ChessEngine β :=
  match lib.load fen with
  | some c => (true, { e with chess := c })
  | none => (false, e)

/-- The method `getFen()`. -/
def getFen (lib : ChessJs β) (e : ChessEngine β) : String :=
  lib.fen e.chess

/-- The method `makeMove(move)`; `none` is `null`. -/
def makeMove (lib : ChessJs β) (e : ChessEngine β) (move : MoveArg) :
    Option Move × ChessEngine β :=
  match lib.move e.chess move with
  | some (result, c) => (some result, { chess := c, moveHistory := e.moveHistory ++ [result] })
  | none => (none, e)

/-- The method `getLegalMoves()`. -/
def getLegalMoves (lib : ChessJs β) (e : ChessEngine β) : List Move :=
  lib.moves e.chess

/-- The method `isMoveLegal(move)`: the move is tried on a fresh `Chess` object built
from the current FEN. -/
def isMoveLegal (lib : ChessJs β) (e : ChessEngine β) (move : MoveArg) : Bool :=
  match lib.load (lib.fen e.chess) with
  | some tempChess => (lib.move tempChess move).isSome
  | none => false

/-- The method `getBestMove()`; `none` is `null` (or `undefined`). -/
def getBestMove (lib : ChessJs β) (e : ChessEngine β) (r : JS.Draw) : Option Move :=
  let moves := getLegalMoves lib e
  if moves.length = 0 then none
  else
    let captures := moves.filter fun move => JS.includes move.flags "c"
    let checks := moves.filter fun move => JS.includes move.san "+"
    let promotions := moves.filter fun move => JS.includes move.flags "p"
    if promotions.length > 0 then promotions[JS.randomIndex r promotions.length]?
    else if captures.length > 0 then captures[JS.randomIndex r captures.length]?
    else if checks.length > 0 then checks[JS.randomIndex r checks.length]?
    else moves[JS.randomIndex r moves.length]?

/-- The method `reset()`. -/
def reset (lib : ChessJs β) (_e : ChessEngine β) : ChessEngine β :=
  { chess := lib.initial, moveHistory := [] }

/-- The method `getMoveHistory()`. -/
def getMoveHistory (e : ChessEngine β) : List Move :=
  e.moveHistory

end ChessEngine

/-- The `callbacks` object of the coordinator; `none` is an absent (or falsy) entry. -/
structure AICallbacks where
  ready : Option Callback
  bestMove : Option Callback
  deriving DecidableEq, Repr

/-- The fields of a `ChessAI`. -/
structure ChessAI (β : Type) where
  stockfish : StockfishBridge
  engine : ChessEngine β
  callbacks : AICallbacks
  isReady : Bool
  isThinking : Bool
  searchDepth : Nat

/-- What an operation of the coordinator does to the outside, in order: a message
handed to `_handleStockfishMessage`, a command posted to the bridge, an invocation of
the ready callback, an invocation of the best-move callback with its argument. -/
inductive Output where
  | message (m : String)
  | posted (command : String)
  | ready (cb : Callback)
  | bestMove (cb : Callback) (move : MoveArg)
  deriving DecidableEq, Repr

namespace ChessAI

variable {β : Type}

/-- The reference to the bound method `_handleStockfishMessage`. -/
def handlerRef : Callback := 0

/-- The constructor. -/
def new (lib : ChessJs β) : ChessAI β :=
  { stockfish := StockfishBridge.new.onMessage (some handlerRef),
    engine := ChessEngine.new lib,
    callbacks := { ready := none, bestMove := none },
    isReady := false, isThinking := false, searchDepth := 15 }

/-- The call `this.stockfish.postMessage(command)`, with the command recorded. -/
def post (s : ChessAI β) (command : String) : ChessAI β × List Output :=
  ({ s with stockfish := s.stockfish.postMessage command }, [.posted command])

/-- The method `init()`. -/
def init (s : ChessAI β) : ChessAI β × List Output :=
  post s "uci"

/-- The method `setSearchDepth(depth)`. -/
def setSearchDepth (s : ChessAI β) (depth : Nat) : ChessAI β :=
  { s with searchDepth := depth }

/-- The method `setPosition(fen)`. -/
def setPosition (lib : ChessJs β) (s : ChessAI β) (fen : String) :
    Bool × ChessAI β × List Output :=
  match ChessEngine.setPosition lib s.engine fen with
  | (true, e) => (true, post { s with engine := e } ("position fen " ++ fen))
  | (false, e) => (false, { s with engine := e }, [])

/-- The method `makeMove(move)`. -/
def makeMove (lib : ChessJs β) (s : ChessAI β) (move : MoveArg) :
    Option Move × ChessAI β × List Output :=
  match ChessEngine.makeMove lib s.engine move with
  | (some result, e) =>
    (some result, post { s with engine := e } ("position fen " ++ ChessEngine.getFen lib e))
  | (none, e) => (none, { s with engine := e }, [])

/-- The method `getBestMove(callback)`. -/
def getBestMove (s : ChessAI β) (callback : Option Callback) :
    Bool × ChessAI β × List Output :=
  if !s.isReady || s.isThinking then (false, s, [])
  else
    (true, post { s with callbacks := { s.callbacks with bestMove := callback },
                         isThinking := true }
      ("go depth " ++ toString s.searchDepth))

/-- The method `reset()`. -/
def reset (lib : ChessJs β) (s : ChessAI β) : ChessAI β × List Output :=
  let e := ChessEngine.reset lib s.engine
  post { s with engine := e } ("position fen " ++ ChessEngine.getFen lib e)

/-- The match of `/bestmove\s+(\S+)/`: the first capture group. -/
def matchBestmove (message : String) : Option String :=
  (JS.firstMatch
    (JS.matchLitSepRun "bestmove".data JS.isWhiteSpace fun c => !JS.isWhiteSpace c)
    message.data).map String.mk

/-- The invocation `this.callbacks.bestMove(move)` behind its truthiness test. -/
def callBestMove (s : ChessAI β) (move : MoveArg) : List Output :=
  match s.callbacks.bestMove with
  | some cb => [.bestMove cb move]
  | none => []

/-- The method `_handleStockfishMessage(event)` on `event.data = message`; `r` is the
draw that `ChessEngine.getBestMove` consumes when it is called. -/
def handleStockfishMessage (lib : ChessJs β) (s : ChessAI β) (message : String)
    (r : JS.Draw) : ChessAI β × List Output :=
  if message = "uciok" then post s "isready"
  else if message = "readyok" then
    let s1 := { s with isReady := true }
    match s1.callbacks.ready with
    | some cb => (s1, [.ready cb])
    | none => (s1, [])
  else if JS.startsWith message "bestmove" then
    let s1 := { s with isThinking := false }
    match matchBestmove message with
    | some moveStr =>
      if ChessEngine.isMoveLegal lib s1.engine (.str moveStr) then
        (s1, callBestMove s1 (.str moveStr))
      else
        match ChessEngine.getBestMove lib s1.engine r with
        | some bestMove => (s1, callBestMove s1 (.obj bestMove))
        | none => (s1, [])
    | none => (s1, [])
  else (s, [])

/-- The method `onReady(callback)`. -/
def onReady (s : ChessAI β) (callback : Option Callback) : ChessAI β × List Output :=
  let s1 := { s with callbacks := { s.callbacks with ready := callback } }
  if s1.isReady then
    match callback with
    | some cb => (s1, [.ready cb])
    | none => (s1, [])
  else (s1, [])

/-- The method `terminate()`. -/
def terminate (s : ChessAI β) : ChessAI β :=
  { s with stockfish := s.stockfish.terminate, callbacks := { ready := none, bestMove := none } }

end ChessAI

/-- What the environment does to a stand-alone bridge: a call of one of its methods, or the
expiry of the pending timer at index `i`, whose closure draws `r` if it needs a random
number.  Any pending timer may be the next to expire. -/
inductive BridgeEvent where
  | onMessage (callback : Option Callback)
  | postMessage (message : String)
  | terminate
  | fire (i : Nat) (r : JS.Draw)

namespace StockfishBridge

/-- The expiry of the pending timer at index `i`: its closure runs `_sendMessage` on each
of its messages.  The result holds the invocations of the consumer. -/
def fire (b : StockfishBridge) (i : Nat) (r : JS.Draw) :
    StockfishBridge × List (Callback × String) :=
  match b.timers[i]? with
  | none => (b, [])
  | some t =>
    let b1 := { b with timers := b.timers.eraseIdx i }
    (b1, (timerMessages b1 t.kind r).flatMap (sendMessage b1))

/-- One event on a stand-alone bridge. -/
def step (b : StockfishBridge) : BridgeEvent → StockfishBridge × List (Callback × String)
  | .onMessage callback => (b.onMessage callback, [])
  | .postMessage message => (b.postMessage message, [])
  | .terminate => (b.terminate, [])
  | .fire i r => b.fire i r

/-- A sequence of events on a stand-alone bridge, with every invocation of a consumer. -/
def run (b : StockfishBridge) : List BridgeEvent → StockfishBridge × List (Callback × String)
  | [] => (b, [])
  | e :: es =>
    let (b1, out1) := step b e
    let (b2, out2) := run b1 es
    (b2, out1 ++ out2)

/-- The `bestmove` messages among the invocations of the consumer. -/
def bestmoves (out : List (Callback × String)) : List (Callback × String) :=
  out.filter fun d => JS.startsWith d.2 "bestmove"

end StockfishBridge

/-- What the user interface and the event loop do to a coordinator: a call of one of its
methods, or the expiry of the bridge timer at index `i`, where `r1` is the draw of the
bridge and `r2` the draw of the rules state.  The callbacks of the user interface are only
ever invoked as the last action of an operation, so whatever they call is a later event. -/
inductive Event where
  | init
  | setSearchDepth (depth : Nat)
  | setPosition (fen : String)
  | makeMove (move : MoveArg)
  | getBestMove (callback : Option Callback)
  | reset
  | onReady (callback : Option Callback)
  | terminate
  | fire (i : Nat) (r1 r2 : JS.Draw)

namespace ChessAI

variable {β : Type}

/-- The method `_sendMessage(message)` of the bridge held by the coordinator: the
registered consumer is the bound `_handleStockfishMessage`. -/
def sendMessage (lib : ChessJs β) (s : ChessAI β) (message : String) (r : JS.Draw) :
    ChessAI β × List Output :=
  match s.stockfish.callbacks.message with
  | some _ =>
    let (s1, out) := handleStockfishMessage lib s message r
    (s1, .message message :: out)
  | none => (s, [])

/-- The calls of `_sendMessage` made by one timer closure, in order. -/
def sendAll (lib : ChessJs β) (s : ChessAI β) (r : JS.Draw) :
    List String → ChessAI β × List Output
  | [] => (s, [])
  | m :: ms =>
    let (s1, out1) := sendMessage lib s m r
    let (s2, out2) := sendAll lib s1 r ms
    (s2, out1 ++ out2)

/-- The expiry of the bridge timer at index `i`. -/
def fire (lib : ChessJs β) (s : ChessAI β) (i : Nat) (r1 r2 : JS.Draw) :
    ChessAI β × List Output :=
  match s.stockfish.timers[i]? with
  | none => (s, [])
  | some t =>
    let b1 := { s.stockfish with timers := s.stockfish.timers.eraseIdx i }
    sendAll lib { s with stockfish := b1 } r2 (StockfishBridge.timerMessages b1 t.kind r1)

/-- One event on a coordinator. -/
def step (lib : ChessJs β) (s : ChessAI β) : Event → ChessAI β × List Output
  | .init => init s
  | .setSearchDepth depth => (setSearchDepth s depth, [])
  | .setPosition fen => (setPosition lib s fen).2
  | .makeMove move => (makeMove lib s move).2
  | .getBestMove callback => (getBestMove s callback).2
  | .reset => reset lib s
  | .onReady callback => onReady s callback
  | .terminate => (terminate s, [])
  | .fire i r1 r2 => fire lib s i r1 r2

/-- A sequence of events on a coordinator, with everything it does to the outside. -/
def run (lib : ChessJs β) (s : ChessAI β) : List Event → ChessAI β × List Output
  | [] => (s, [])
  | e :: es =>
    let (s1, out1) := step lib s e
    let (s2, out2) := run lib s1 es
    (s2, out1 ++ out2)

end ChessAI

/-! ## A tabulated fragment of `chess.js`

Five positions with their legal moves, in the order in which the library lists them, and
the position each move leads to: the starting position, the position after
1. e4 e5 2. Nf3 Nc6 3. Bb5 with Black to move, the position after 1. f3 e5 2. g4 Qh4, where
White is mated and has no move, an ending in which White may capture en passant, and an
ending in which White mates on the back rank.  The state of a `Chess` object is its FEN;
a FEN outside the table is refused by `load`. -/

namespace TableChess

/-- The starting position. -/
def startFen : String := "rnbqkbnr/pppppppp/8/8/8/8/PPPPPPPP/RNBQKBNR w KQkq - 0 1"

/-- The position after 1. e4 e5 2. Nf3 Nc6 3. Bb5, Black to move. -/
def ruyLopezFen : String :=
  "r1bqkbnr/pppp1ppp/2n5/1B2p3/4P3/5N2/PPPP1PPP/RNBQK2R b KQkq - 3 3"

/-- The tabulated positions: each legal move with the FEN it leads to. -/
def table : List (String × List (Move × String)) :=
  [
    ("rnbqkbnr/pppppppp/8/8/8/8/PPPPPPPP/RNBQKBNR w KQkq - 0 1",
      [
        (⟨"a2", "a3", none, "n", "a3"⟩,
          "rnbqkbnr/pppppppp/8/8/8/P7/1PPPPPPP/RNBQKBNR b KQkq - 0 1"),
        (⟨"a2", "a4", none, "b", "a4"⟩,
          "rnbqkbnr/pppppppp/8/8/P7/8/1PPPPPPP/RNBQKBNR b KQkq a3 0 1"),
        (⟨"b2", "b3", none, "n", "b3"⟩,
          "rnbqkbnr/pppppppp/8/8/8/1P6/P1PPPPPP/RNBQKBNR b KQkq - 0 1"),
        (⟨"b2", "b4", none, "b", "b4"⟩,
          "rnbqkbnr/pppppppp/8/8/1P6/8/P1PPPPPP/RNBQKBNR b KQkq b3 0 1"),
        (⟨"c2", "c3", none, "n", "c3"⟩,
          "rnbqkbnr/pppppppp/8/8/8/2P5/PP1PPPPP/RNBQKBNR b KQkq - 0 1"),
        (⟨"c2", "c4", none, "b", "c4"⟩,
          "rnbqkbnr/pppppppp/8/8/2P5/8/PP1PPPPP/RNBQKBNR b KQkq c3 0 1"),
        (⟨"d2", "d3", none, "n", "d3"⟩,
          "rnbqkbnr/pppppppp/8/8/8/3P4/PPP1PPPP/RNBQKBNR b KQkq - 0 1"),
        (⟨"d2", "d4", none, "b", "d4"⟩,
          "rnbqkbnr/pppppppp/8/8/3P4/8/PPP1PPPP/RNBQKBNR b KQkq d3 0 1"),
        (⟨"e2", "e3", none, "n", "e3"⟩,
          "rnbqkbnr/pppppppp/8/8/8/4P3/PPPP1PPP/RNBQKBNR b KQkq - 0 1"),
        (⟨"e2", "e4", none, "b", "e4"⟩,
          "rnbqkbnr/pppppppp/8/8/4P3/8/PPPP1PPP/RNBQKBNR b KQkq e3 0 1"),
        (⟨"f2", "f3", none, "n", "f3"⟩,
          "rnbqkbnr/pppppppp/8/8/8/5P2/PPPPP1PP/RNBQKBNR b KQkq - 0 1"),
        (⟨"f2", "f4", none, "b", "f4"⟩,
          "rnbqkbnr/pppppppp/8/8/5P2/8/PPPPP1PP/RNBQKBNR b KQkq f3 0 1"),
        (⟨"g2", "g3", none, "n", "g3"⟩,
          "rnbqkbnr/pppppppp/8/8/8/6P1/PPPPPP1P/RNBQKBNR b KQkq - 0 1"),
        (⟨"g2", "g4", none, "b", "g4"⟩,
          "rnbqkbnr/pppppppp/8/8/6P1/8/PPPPPP1P/RNBQKBNR b KQkq g3 0 1"),
        (⟨"h2", "h3", none, "n", "h3"⟩,
          "rnbqkbnr/pppppppp/8/8/8/7P/PPPPPPP1/RNBQKBNR b KQkq - 0 1"),
        (⟨"h2", "h4", none, "b", "h4"⟩,
          "rnbqkbnr/pppppppp/8/8/7P/8/PPPPPPP1/RNBQKBNR b KQkq h3 0 1"),
        (⟨"b1", "a3", none, "n", "Na3"⟩,
          "rnbqkbnr/pppppppp/8/8/8/N7/PPPPPPPP/R1BQKBNR b KQkq - 1 1"),
        (⟨"b1", "c3", none, "n", "Nc3"⟩,
          "rnbqkbnr/pppppppp/8/8/8/2N5/PPPPPPPP/R1BQKBNR b KQkq - 1 1"),
        (⟨"g1", "f3", none, "n", "Nf3"⟩,
          "rnbqkbnr/pppppppp/8/8/8/5N2/PPPPPPPP/RNBQKB1R b KQkq - 1 1"),
        (⟨"g1", "h3", none, "n", "Nh3"⟩,
          "rnbqkbnr/pppppppp/8/8/8/7N/PPPPPPPP/RNBQKB1R b KQkq - 1 1") ]),
    ("r1bqkbnr/pppp1ppp/2n5/1B2p3/4P3/5N2/PPPP1PPP/RNBQK2R b KQkq - 3 3",
      [
        (⟨"a7", "a6", none, "n", "a6"⟩,
          "r1bqkbnr/1ppp1ppp/p1n5/1B2p3/4P3/5N2/PPPP1PPP/RNBQK2R w KQkq - 0 4"),
        (⟨"a7", "a5", none, "b", "a5"⟩,
          "r1bqkbnr/1ppp1ppp/2n5/pB2p3/4P3/5N2/PPPP1PPP/RNBQK2R w KQkq a6 0 4"),
        (⟨"b7", "b6", none, "n", "b6"⟩,
          "r1bqkbnr/p1pp1ppp/1pn5/1B2p3/4P3/5N2/PPPP1PPP/RNBQK2R w KQkq - 0 4"),
        (⟨"d7", "d6", none, "n", "d6"⟩,
          "r1bqkbnr/ppp2ppp/2np4/1B2p3/4P3/5N2/PPPP1PPP/RNBQK2R w KQkq - 0 4"),
        (⟨"d7", "d5", none, "b", "d5"⟩,
          "r1bqkbnr/ppp2ppp/2n5/1B1pp3/4P3/5N2/PPPP1PPP/RNBQK2R w KQkq d6 0 4"),
        (⟨"f7", "f6", none, "n", "f6"⟩,
          "r1bqkbnr/pppp2pp/2n2p2/1B2p3/4P3/5N2/PPPP1PPP/RNBQK2R w KQkq - 0 4"),
        (⟨"f7", "f5", none, "b", "f5"⟩,
          "r1bqkbnr/pppp2pp/2n5/1B2pp2/4P3/5N2/PPPP1PPP/RNBQK2R w KQkq f6 0 4"),
        (⟨"g7", "g6", none, "n", "g6"⟩,
          "r1bqkbnr/pppp1p1p/2n3p1/1B2p3/4P3/5N2/PPPP1PPP/RNBQK2R w KQkq - 0 4"),
        (⟨"g7", "g5", none, "b", "g5"⟩,
          "r1bqkbnr/pppp1p1p/2n5/1B2p1p1/4P3/5N2/PPPP1PPP/RNBQK2R w KQkq g6 0 4"),
        (⟨"h7", "h6", none, "n", "h6"⟩,
          "r1bqkbnr/pppp1pp1/2n4p/1B2p3/4P3/5N2/PPPP1PPP/RNBQK2R w KQkq - 0 4"),
        (⟨"h7", "h5", none, "b", "h5"⟩,
          "r1bqkbnr/pppp1pp1/2n5/1B2p2p/4P3/5N2/PPPP1PPP/RNBQK2R w KQkq h6 0 4"),
        (⟨"c6", "b8", none, "n", "Nb8"⟩,
          "rnbqkbnr/pppp1ppp/8/1B2p3/4P3/5N2/PPPP1PPP/RNBQK2R w KQkq - 4 4"),
        (⟨"c6", "e7", none, "n", "Nce7"⟩,
          "r1bqkbnr/ppppnppp/8/1B2p3/4P3/5N2/PPPP1PPP/RNBQK2R w KQkq - 4 4"),
        (⟨"c6", "a5", none, "n", "Na5"⟩,
          "r1bqkbnr/pppp1ppp/8/nB2p3/4P3/5N2/PPPP1PPP/RNBQK2R w KQkq - 4 4"),
        (⟨"c6", "b4", none, "n", "Nb4"⟩,
          "r1bqkbnr/pppp1ppp/8/1B2p3/1n2P3/5N2/PPPP1PPP/RNBQK2R w KQkq - 4 4"),
        (⟨"c6", "d4", none, "n", "Nd4"⟩,
          "r1bqkbnr/pppp1ppp/8/1B2p3/3nP3/5N2/PPPP1PPP/RNBQK2R w KQkq - 4 4"),
        (⟨"g8", "e7", none, "n", "Nge7"⟩,
          "r1bqkb1r/ppppnppp/2n5/1B2p3/4P3/5N2/PPPP1PPP/RNBQK2R w KQkq - 4 4"),
        (⟨"g8", "f6", none, "n", "Nf6"⟩,
          "r1bqkb1r/pppp1ppp/2n2n2/1B2p3/4P3/5N2/PPPP1PPP/RNBQK2R w KQkq - 4 4"),
        (⟨"g8", "h6", none, "n", "Nh6"⟩,
          "r1bqkb1r/pppp1ppp/2n4n/1B2p3/4P3/5N2/PPPP1PPP/RNBQK2R w KQkq - 4 4"),
        (⟨"f8", "e7", none, "n", "Be7"⟩,
          "r1bqk1nr/ppppbppp/2n5/1B2p3/4P3/5N2/PPPP1PPP/RNBQK2R w KQkq - 4 4"),
        (⟨"f8", "d6", none, "n", "Bd6"⟩,
          "r1bqk1nr/pppp1ppp/2nb4/1B2p3/4P3/5N2/PPPP1PPP/RNBQK2R w KQkq - 4 4"),
        (⟨"f8", "c5", none, "n", "Bc5"⟩,
          "r1bqk1nr/pppp1ppp/2n5/1Bb1p3/4P3/5N2/PPPP1PPP/RNBQK2R w KQkq - 4 4"),
        (⟨"f8", "b4", none, "n", "Bb4"⟩,
          "r1bqk1nr/pppp1ppp/2n5/1B2p3/1b2P3/5N2/PPPP1PPP/RNBQK2R w KQkq - 4 4"),
        (⟨"f8", "a3", none, "n", "Ba3"⟩,
          "r1bqk1nr/pppp1ppp/2n5/1B2p3/4P3/b4N2/PPPP1PPP/RNBQK2R w KQkq - 4 4"),
        (⟨"d8", "e7", none, "n", "Qe7"⟩,
          "r1b1kbnr/ppppqppp/2n5/1B2p3/4P3/5N2/PPPP1PPP/RNBQK2R w KQkq - 4 4"),
        (⟨"d8", "f6", none, "n", "Qf6"⟩,
          "r1b1kbnr/pppp1ppp/2n2q2/1B2p3/4P3/5N2/PPPP1PPP/RNBQK2R w KQkq - 4 4"),
        (⟨"d8", "g5", none, "n", "Qg5"⟩,
          "r1b1kbnr/pppp1ppp/2n5/1B2p1q1/4P3/5N2/PPPP1PPP/RNBQK2R w KQkq - 4 4"),
        (⟨"d8", "h4", none, "n", "Qh4"⟩,
          "r1b1kbnr/pppp1ppp/2n5/1B2p3/4P2q/5N2/PPPP1PPP/RNBQK2R w KQkq - 4 4"),
        (⟨"a8", "b8", none, "n", "Rb8"⟩,
          "1rbqkbnr/pppp1ppp/2n5/1B2p3/4P3/5N2/PPPP1PPP/RNBQK2R w KQk - 4 4"),
        (⟨"e8", "e7", none, "n", "Ke7"⟩,
          "r1bq1bnr/ppppkppp/2n5/1B2p3/4P3/5N2/PPPP1PPP/RNBQK2R w KQ - 4 4") ]),
    ("rnb1kbnr/pppp1ppp/8/4p3/6Pq/5P2/PPPPP2P/RNBQKBNR w KQkq - 1 3", []),
    ("4k3/8/8/3pP3/8/8/8/4K2R w K d6 0 2",
    [
      (⟨"e5", "e6", none, "n", "e6"⟩,
        "4k3/8/4P3/3p4/8/8/8/4K2R b K - 0 2"),
      (⟨"e5", "d6", none, "e", "exd6"⟩,
        "4k3/8/3P4/8/8/8/8/4K2R b K - 0 2"),
      (⟨"e1", "d2", none, "n", "Kd2"⟩,
        "4k3/8/8/3pP3/8/8/3K4/7R b - - 1 2"),
      (⟨"e1", "e2", none, "n", "Ke2"⟩,
        "4k3/8/8/3pP3/8/8/4K3/7R b - - 1 2"),
      (⟨"e1", "f2", none, "n", "Kf2"⟩,
        "4k3/8/8/3pP3/8/8/5K2/7R b - - 1 2"),
      (⟨"e1", "f1", none, "n", "Kf1"⟩,
        "4k3/8/8/3pP3/8/8/8/5K1R b - - 1 2"),
      (⟨"e1", "d1", none, "n", "Kd1"⟩,
        "4k3/8/8/3pP3/8/8/8/3K3R b - - 1 2"),
      (⟨"h1", "h2", none, "n", "Rh2"⟩,
        "4k3/8/8/3pP3/8/8/7R/4K3 b - - 1 2"),
      (⟨"h1", "h3", none, "n", "Rh3"⟩,
        "4k3/8/8/3pP3/8/7R/8/4K3 b - - 1 2"),
      (⟨"h1", "h4", none, "n", "Rh4"⟩,
        "4k3/8/8/3pP3/7R/8/8/4K3 b - - 1 2"),
      (⟨"h1", "h5", none, "n", "Rh5"⟩,
        "4k3/8/8/3pP2R/8/8/8/4K3 b - - 1 2"),
      (⟨"h1", "h6", none, "n", "Rh6"⟩,
        "4k3/8/7R/3pP3/8/8/8/4K3 b - - 1 2"),
      (⟨"h1", "h7", none, "n", "Rh7"⟩,
        "4k3/7R/8/3pP3/8/8/8/4K3 b - - 1 2"),
      (⟨"h1", "h8", none, "n", "Rh8+"⟩,
        "4k2R/8/8/3pP3/8/8/8/4K3 b - - 1 2"),
      (⟨"h1", "g1", none, "n", "Rg1"⟩,
        "4k3/8/8/3pP3/8/8/8/4K1R1 b - - 1 2"),
      (⟨"h1", "f1", none, "n", "Rf1"⟩,
        "4k3/8/8/3pP3/8/8/8/4KR2 b - - 1 2"),
      (⟨"e1", "g1", none, "k", "O-O"⟩,
        "4k3/8/8/3pP3/8/8/8/5RK1 b - - 1 2") ]),
    ("6k1/5ppp/8/8/8/8/8/R3K3 w Q - 0 1",
    [
      (⟨"a1", "a2", none, "n", "Ra2"⟩,
        "6k1/5ppp/8/8/8/8/R7/4K3 b - - 1 1"),
      (⟨"a1", "a3", none, "n", "Ra3"⟩,
        "6k1/5ppp/8/8/8/R7/8/4K3 b - - 1 1"),
      (⟨"a1", "a4", none, "n", "Ra4"⟩,
        "6k1/5ppp/8/8/R7/8/8/4K3 b - - 1 1"),
      (⟨"a1", "a5", none, "n", "Ra5"⟩,
        "6k1/5ppp/8/R7/8/8/8/4K3 b - - 1 1"),
      (⟨"a1", "a6", none, "n", "Ra6"⟩,
        "6k1/5ppp/R7/8/8/8/8/4K3 b - - 1 1"),
      (⟨"a1", "a7", none, "n", "Ra7"⟩,
        "6k1/R4ppp/8/8/8/8/8/4K3 b - - 1 1"),
      (⟨"a1", "a8", none, "n", "Ra8#"⟩,
        "R5k1/5ppp/8/8/8/8/8/4K3 b - - 1 1"),
      (⟨"a1", "b1", none, "n", "Rb1"⟩,
        "6k1/5ppp/8/8/8/8/8/1R2K3 b - - 1 1"),
      (⟨"a1", "c1", none, "n", "Rc1"⟩,
        "6k1/5ppp/8/8/8/8/8/2R1K3 b - - 1 1"),
      (⟨"a1", "d1", none, "n", "Rd1"⟩,
        "6k1/5ppp/8/8/8/8/8/3RK3 b - - 1 1"),
      (⟨"e1", "d2", none, "n", "Kd2"⟩,
        "6k1/5ppp/8/8/8/8/3K4/R7 b - - 1 1"),
      (⟨"e1", "e2", none, "n", "Ke2"⟩,
        "6k1/5ppp/8/8/8/8/4K3/R7 b - - 1 1"),
      (⟨"e1", "f2", none, "n", "Kf2"⟩,
        "6k1/5ppp/8/8/8/8/5K2/R7 b - - 1 1"),
      (⟨"e1", "f1", none, "n", "Kf1"⟩,
        "6k1/5ppp/8/8/8/8/8/R4K2 b - - 1 1"),
      (⟨"e1", "d1", none, "n", "Kd1"⟩,
        "6k1/5ppp/8/8/8/8/8/R2K4 b - - 1 1"),
      (⟨"e1", "c1", none, "q", "O-O-O"⟩,
        "6k1/5ppp/8/8/8/8/8/2KR4 b - - 1 1") ]) ]

/-- The legal moves of a position with their successors; none outside the table. -/
def entries (fen : String) : List (Move × String) :=
  (table.lookup fen).getD []

/-- Whether an argument of `move` designates the legal move `m`: a string by its
notation or its coordinates, an object by its squares and promotion piece. -/
def designates (arg : MoveArg) (m : Move) : Bool :=
  match arg with
  | .str s => s = m.san || s = m.from ++ m.to ++ m.promotion.getD ""
  | .obj o => o.from = m.from && o.to = m.to && o.promotion = m.promotion

/-- The library restricted to the table. -/
def lib : ChessJs String where
  initial := startFen
  load fen := if (table.lookup fen).isSome then some fen else none
  fen c := c
  moves c := (entries c).map Prod.fst
  move c arg := (entries c).find? fun e => designates arg e.1

/-- A coordinator that has completed the handshake, holds the position after
1. e4 e5 2. Nf3 Nc6 3. Bb5, and has a search outstanding for callback `7`. -/
def searching : ChessAI String :=
  { stockfish :=
      { callbacks := { message := some ChessAI.handlerRef }, isReady := true,
        currentPosition := ruyLopezFen, timers := [] },
    engine := { chess := ruyLopezFen, moveHistory := [] },
    callbacks := { ready := none, bestMove := some 7 },
    isReady := true, isThinking := true, searchDepth := 15 }

/-- The position after 1. f3 e5 2. g4 Qh4: White is mated. -/
def foolsMateFen : String := "rnb1kbnr/pppp1ppp/8/4p3/6Pq/5P2/PPPPP2P/RNBQKBNR w KQkq - 1 3"

/-- A coordinator that has completed the handshake, holds the position in which White is
mated, and has a search outstanding for callback `7`. -/
def mated : ChessAI String :=
  { stockfish :=
      { callbacks := { message := some ChessAI.handlerRef }, isReady := true,
        currentPosition := foolsMateFen, timers := [] },
    engine := { chess := foolsMateFen, moveHistory := [] },
    callbacks := { ready := none, bestMove := some 7 },
    isReady := true, isThinking := true, searchDepth := 15 }

/-- An ending in which the white pawn on e5 may capture the pawn on d5 en passant. -/
def enPassantFen : String := "4k3/8/8/3pP3/8/8/8/4K2R w K d6 0 2"

/-- An ending in which the white rook mates on a8. -/
def backRankFen : String := "6k1/5ppp/8/8/8/8/8/R3K3 w Q - 0 1"

end TableChess

/-! ## Vocabulary of the properties -/

/-- Whether an event registers a consumer. -/
def BridgeEvent.registers : BridgeEvent → Bool
  | .onMessage _ => true
  | _ => false

/-- Both handshake responses have been delivered. -/
def Handshaken (out : List Output) : Prop :=
  Output.message "uciok" ∈ out ∧ Output.message "readyok" ∈ out

/-- The outputs that belong to a search: a delivered `bestmove` message and a posted
`go` command. -/
def Output.isSearch : Output → Bool
  | .message m => JS.startsWith m "bestmove"
  | .posted command => JS.startsWith command "go"
  | _ => false

/-- Every output of a search comes after both handshake responses. -/
def SearchAfterHandshake (out : List Output) : Prop :=
  ∀ pre o post, out = pre ++ o :: post → o.isSearch = true → Handshaken pre

/-- The invariant of a coordinator `s` that has produced `out` so far. -/
structure ChessAI.Inv {β : Type} (s : ChessAI β) (out : List Output) : Prop where
  ready : s.isReady = true → Handshaken out
  goTimer : (∃ t ∈ s.stockfish.timers, t.kind = .go) → Handshaken out
  isreadyTimer : (∃ t ∈ s.stockfish.timers, t.kind = .isready) → Output.message "uciok" ∈ out
  ordered : SearchAfterHandshake out

/-- The number written by a string of decimal digits. -/
def decimalValue (digits : List Char) : Nat :=
  Nat.ofDigits 10 (digits.reverse.map fun c => c.toNat - 48)

/-- The input `s` begins with `depth`, then whitespace, then the decimal number written
by `digits`, which is all of the digits found there. -/
def BeginsWithDepth (s digits : List Char) : Prop :=
  ∃ ws rest, s = "depth".data ++ ws ++ digits ++ rest
    ∧ ws ≠ [] ∧ (∀ c ∈ ws, JS.isWhiteSpace c = true)
    ∧ digits ≠ [] ∧ (∀ c ∈ digits, JS.isDigit c = true)
    ∧ (∀ c ∈ rest.head?, JS.isDigit c = false)

/-- The depth that a command gives: the decimal number that follows `depth` and
whitespace, at the first place of the command where there is one, and 15 when there is
no such place. -/
def CommandDepth (message : String) (d : Nat) : Prop :=
  (∃ pre suf digits, message.data = pre ++ suf ∧ BeginsWithDepth suf digits
      ∧ (∀ p1 p2 digits', pre = p1 ++ p2 → p2 ≠ [] → ¬ BeginsWithDepth (p2 ++ suf) digits')
      ∧ d = decimalValue digits)
    ∨ ((∀ pre suf digits, message.data = pre ++ suf → ¬ BeginsWithDepth suf digits) ∧ d = 15)

/-- The second of the fields of `s` separated by single spaces is `field`. -/
def SecondField (s field : List Char) : Prop :=
  ∃ first tail, s = first ++ ' ' :: field ++ tail ∧ ' ' ∉ first ∧ ' ' ∉ field
    ∧ (tail = [] ∨ ∃ t, tail = ' ' :: t)

/-- The move is a promotion: its flags carry the letter `p`. -/
def Move.isPromotion (m : Move) : Prop :=
  'p' ∈ m.flags.data

/-- The move is a capture: its flags carry the letter `c` of a standard capture or the
letter `e` of an en-passant capture. -/
def Move.isCapture (m : Move) : Prop :=
  'c' ∈ m.flags.data ∨ 'e' ∈ m.flags.data

/-- The move gives check: its notation carries the mark `+` of a check or the mark `#` of
a mate. -/
def Move.isCheck (m : Move) : Prop :=
  '+' ∈ m.san.data ∨ '#' ∈ m.san.data

instance Move.decidableIsPromotion (m : Move) : Decidable m.isPromotion :=
  inferInstanceAs (Decidable ('p' ∈ m.flags.data))

instance Move.decidableIsCapture (m : Move) : Decidable m.isCapture :=
  inferInstanceAs (Decidable ('c' ∈ m.flags.data ∨ 'e' ∈ m.flags.data))

instance Move.decidableIsCheck (m : Move) : Decidable m.isCheck :=
  inferInstanceAs (Decidable ('+' ∈ m.san.data ∨ '#' ∈ m.san.data))

/-- A non-empty string without a line terminator, as every FEN written by the library is:
six fields joined by single spaces. -/
def SingleLine (x : String) : Prop :=
  x.data ≠ [] ∧ ∀ c ∈ x.data, JS.isLineTerminator c = false

/-- The first round trip of the handshake is over: `uciok` has been delivered and the
coordinator has posted `isready`. -/
def UciAnswered (out : List Output) : Prop :=
  Output.message "uciok" ∈ out ∧ Output.posted "isready" ∈ out

/-- The number of pending search timers of a bridge. -/
def StockfishBridge.searchTimers (b : StockfishBridge) : Nat :=
  b.timers.countP fun t => t.kind = .go

/-- The output is a `go` command posted to the bridge. -/
def Output.isGo : Output → Bool
  | .posted command => JS.startsWith command "go"
  | _ => false

/-- The output is an invocation of the best-move callback. -/
def Output.isInvocation : Output → Bool
  | .bestMove _ _ => true
  | _ => false

/-- The bookkeeping of searches along a trace: `some true` after a posted `go` that no
invocation of the best-move callback has answered yet, `some false` when no search is
outstanding, and `none` once an invocation has occurred with no search outstanding. -/
def searchLedger : Option Bool → Output → Option Bool
  | none, _ => none
  | some pending, o =>
    if o.isGo then some true
    else if o.isInvocation then (if pending then some false else none)
    else some pending

/-- The invariant of a coordinator `s` that has produced `out` so far, as to searches: at
most one search timer is pending, one is pending only while `isThinking` is true, and
the best-move callback has only ever been invoked in answer to a posted `go`, once. -/
structure ChessAI.SearchInv {β : Type} (s : ChessAI β) (out : List Output) : Prop where
  atMostOne : s.stockfish.searchTimers ≤ 1
  thinking : 0 < s.stockfish.searchTimers → s.isThinking = true
  ledger : ∃ pending, out.foldl searchLedger (some false) = some pending
    ∧ (0 < s.stockfish.searchTimers → pending = true)

/-! ## Random draws and the heuristic of the rules state -/

theorem JS.randomIndex_lt (r : JS.Draw) {n : Nat} (h : 0 < n) : JS.randomIndex r n < n := by
  unfold JS.randomIndex
  apply Nat.div_lt_of_lt_mul
  have := r.isLt
  calc r.val * n < 9007199254740992 * n := Nat.mul_lt_mul_of_pos_right this h

theorem JS.pick_mem {α : Type} (l : List α) (r : JS.Draw) (a : α)
    (h : l[JS.randomIndex r l.length]? = some a) : a ∈ l :=
  List.getElem?_mem h

theorem JS.pick_isSome {α : Type} (l : List α) (r : JS.Draw) (h : 0 < l.length) :
    ∃ a, l[JS.randomIndex r l.length]? = some a ∧ a ∈ l := by
  have hlt := JS.randomIndex_lt r h
  exact ⟨l[JS.randomIndex r l.length], List.getElem?_eq_getElem hlt, List.getElem_mem _⟩

theorem ChessEngine.getBestMove_mem {β : Type} (lib : ChessJs β) (e : ChessEngine β)
    (r : JS.Draw) (m : Move) (h : ChessEngine.getBestMove lib e r = some m) :
    m ∈ ChessEngine.getLegalMoves lib e := by
  unfold ChessEngine.getBestMove at h
  simp only at h
  split_ifs at h
  · exact List.mem_of_mem_filter (JS.pick_mem _ r m h)
  · exact List.mem_of_mem_filter (JS.pick_mem _ r m h)
  · exact List.mem_of_mem_filter (JS.pick_mem _ r m h)
  · exact JS.pick_mem _ r m h

theorem ChessEngine.getBestMove_isSome {β : Type} (lib : ChessJs β) (e : ChessEngine β)
    (r : JS.Draw) (h : ChessEngine.getLegalMoves lib e ≠ []) :
    ∃ m, ChessEngine.getBestMove lib e r = some m ∧ m ∈ ChessEngine.getLegalMoves lib e := by
  have hlen : 0 < (ChessEngine.getLegalMoves lib e).length := List.length_pos.mpr h
  unfold ChessEngine.getBestMove
  simp only
  split_ifs with h0 h1 h2 h3
  · omega
  · obtain ⟨a, ha, hm⟩ := JS.pick_isSome _ r h1
    exact ⟨a, ha, List.mem_of_mem_filter hm⟩
  · obtain ⟨a, ha, hm⟩ := JS.pick_isSome _ r h2
    exact ⟨a, ha, List.mem_of_mem_filter hm⟩
  · obtain ⟨a, ha, hm⟩ := JS.pick_isSome _ r h3
    exact ⟨a, ha, List.mem_of_mem_filter hm⟩
  · exact JS.pick_isSome _ r hlen

/-! ## The best-move branch of the coordinator -/

theorem ChessAI.handleStockfishMessage_engine {β : Type} (lib : ChessJs β) (s : ChessAI β)
    (message : String) (r : JS.Draw) :
    (ChessAI.handleStockfishMessage lib s message r).1.engine = s.engine := by
  unfold ChessAI.handleStockfishMessage ChessAI.post
  simp only
  split_ifs <;> (try rfl)
  · split <;> rfl
  · split
    · split_ifs
      · rfl
      · split <;> rfl
    · rfl

/-- C1: for every coordinator state and every message (those beginning with `bestmove`
are the only ones that reach the callback), whenever `_handleStockfishMessage` invokes
the best-move callback, the move it passes is legal in the position the rules state
holds (`isMoveLegal` returns true for it): it is the proposed token when that is legal,
and otherwise a member of `getLegalMoves()` drawn by `ChessEngine.getBestMove`.  The
library is assumed to accept each move record that it lists for the current position. -/
theorem ChessAI.handleStockfishMessage_surfaces_legal {β : Type} (lib : ChessJs β)
    (s : ChessAI β) (message : String) (r : JS.Draw) (cb : Callback) (move : MoveArg)
    (hlib : ∀ m ∈ ChessEngine.getLegalMoves lib s.engine,
      ChessEngine.isMoveLegal lib s.engine (.obj m) = true)
    (hcall : Output.bestMove cb move ∈ (ChessAI.handleStockfishMessage lib s message r).2) :
    ChessEngine.isMoveLegal lib (ChessAI.handleStockfishMessage lib s message r).1.engine move
        = true
      ∧ ((∃ token, ChessAI.matchBestmove message = some token ∧ move = .str token
            ∧ ChessEngine.isMoveLegal lib s.engine (.str token) = true)
        ∨ (∃ token m, ChessAI.matchBestmove message = some token
            ∧ ChessEngine.isMoveLegal lib s.engine (.str token) = false
            ∧ ChessEngine.getBestMove lib s.engine r = some m
            ∧ m ∈ ChessEngine.getLegalMoves lib s.engine ∧ move = .obj m)) := by
  rw [ChessAI.handleStockfishMessage_engine]
  unfold ChessAI.handleStockfishMessage ChessAI.post ChessAI.callBestMove at hcall
  simp only at hcall
  split_ifs at hcall with h1 h2 h3
  · simp at hcall
  · split at hcall <;> simp at hcall
  · split at hcall
    · rename_i moveStr hmatch
      split_ifs at hcall with hlegal
      · split at hcall
        · simp only [List.mem_singleton, Output.bestMove.injEq] at hcall
          obtain ⟨-, rfl⟩ := hcall
          exact ⟨hlegal, Or.inl ⟨moveStr, hmatch, rfl, hlegal⟩⟩
        · simp at hcall
      · split at hcall
        · rename_i bestMove hbest
          split at hcall
          · simp only [List.mem_singleton, Output.bestMove.injEq] at hcall
            obtain ⟨-, rfl⟩ := hcall
            have hmem := ChessEngine.getBestMove_mem lib s.engine r bestMove hbest
            exact ⟨hlib _ hmem, Or.inr ⟨moveStr, bestMove, hmatch, by simpa using hlegal,
              hbest, hmem, rfl⟩⟩
          · simp at hcall
        · simp at hcall
    · simp at hcall
  · simp at hcall

theorem ChessAI.handleStockfishMessage_surfaces_legal_witness :
    (∀ m ∈ ChessEngine.getLegalMoves TableChess.lib TableChess.searching.engine,
        ChessEngine.isMoveLegal TableChess.lib TableChess.searching.engine (.obj m) = true)
      ∧ ChessEngine.isMoveLegal TableChess.lib
          (ChessAI.handleStockfishMessage TableChess.lib TableChess.searching "bestmove z9z9"
            ⟨0, by decide⟩).1.engine (.obj ⟨"a7", "a6", none, "n", "a6"⟩) = true :=
  ⟨by decide,
    (ChessAI.handleStockfishMessage_surfaces_legal TableChess.lib TableChess.searching
      "bestmove z9z9" ⟨0, by decide⟩ 7 (.obj ⟨"a7", "a6", none, "n", "a6"⟩)
      (by decide) (by decide)).1⟩

/-- C2: in a position with at least one legal move, a `bestmove` message whose move token
is illegal makes the coordinator invoke the stored best-move callback exactly once, with
a member of `getLegalMoves()`. -/
theorem ChessAI.handleStockfishMessage_substitutes {β : Type} (lib : ChessJs β)
    (s : ChessAI β) (message : String) (r : JS.Draw) (token : String) (cb : Callback)
    (hstart : JS.startsWith message "bestmove" = true)
    (htoken : ChessAI.matchBestmove message = some token)
    (hillegal : ChessEngine.isMoveLegal lib s.engine (.str token) = false)
    (hmoves : ChessEngine.getLegalMoves lib s.engine ≠ [])
    (hcb : s.callbacks.bestMove = some cb) :
    ∃ m, m ∈ ChessEngine.getLegalMoves lib s.engine
      ∧ (ChessAI.handleStockfishMessage lib s message r).2 = [.bestMove cb (.obj m)] := by
  obtain ⟨m, hbest, hmem⟩ := ChessEngine.getBestMove_isSome lib s.engine r hmoves
  refine ⟨m, hmem, ?_⟩
  have h1 : message ≠ "uciok" := by
    rintro rfl
    exact absurd hstart (by decide)
  have h2 : message ≠ "readyok" := by
    rintro rfl
    exact absurd hstart (by decide)
  unfold ChessAI.handleStockfishMessage ChessAI.callBestMove
  simp [h1, h2, hstart, htoken, hillegal, hbest, hcb]

theorem ChessAI.handleStockfishMessage_substitutes_witness :
    ∃ m, m ∈ ChessEngine.getLegalMoves TableChess.lib TableChess.searching.engine
      ∧ (ChessAI.handleStockfishMessage TableChess.lib TableChess.searching "bestmove z9z9"
          ⟨4503599627370496, by decide⟩).2 = [.bestMove 7 (.obj m)] :=
  ChessAI.handleStockfishMessage_substitutes TableChess.lib TableChess.searching
    "bestmove z9z9" ⟨4503599627370496, by decide⟩ "z9z9" 7
    (by decide) (by decide) (by decide) (by decide) (by decide)

/-- C3: `ChessAI.getBestMove(callback)` returns false exactly when the coordinator is not
ready or is already thinking, and then leaves the coordinator as it was and sends
nothing; otherwise it returns true, sets `isThinking`, stores the callback and sends the
bridge the one command `go depth <searchDepth>`, every other field being kept. -/
theorem ChessAI.getBestMove_contract {β : Type} (s : ChessAI β)
    (callback : Option Callback) :
    (((ChessAI.getBestMove s callback).1 = false)
        ↔ (s.isReady = false ∨ s.isThinking = true))
      ∧ ((ChessAI.getBestMove s callback).1 = false →
          (ChessAI.getBestMove s callback).2 = (s, []))
      ∧ ((ChessAI.getBestMove s callback).1 ≠ false →
          (ChessAI.getBestMove s callback).1 = true
          ∧ (ChessAI.getBestMove s callback).2.1.isThinking = true
          ∧ (ChessAI.getBestMove s callback).2.1.callbacks.bestMove = callback
          ∧ (ChessAI.getBestMove s callback).2.2
              = [.posted ("go depth " ++ toString s.searchDepth)]
          ∧ (ChessAI.getBestMove s callback).2.1.stockfish
              = s.stockfish.postMessage ("go depth " ++ toString s.searchDepth)
          ∧ (ChessAI.getBestMove s callback).2.1.callbacks.ready = s.callbacks.ready
          ∧ (ChessAI.getBestMove s callback).2.1.isReady = s.isReady
          ∧ (ChessAI.getBestMove s callback).2.1.searchDepth = s.searchDepth
          ∧ (ChessAI.getBestMove s callback).2.1.engine = s.engine) := by
  unfold ChessAI.getBestMove ChessAI.post
  cases hr : s.isReady <;> cases ht : s.isThinking <;> simp

/-! ## Dispatch of commands in the bridge -/

theorem JS.startsWith_go_data (g : String) (h : JS.startsWith g "go" = true) :
    ∃ rest, g.data = 'g' :: 'o' :: rest := by
  unfold JS.startsWith at h
  have hlit : ("go" : String).data = ['g', 'o'] := rfl
  rw [hlit] at h
  match hg : g.data with
  | [] => simp [hg, JS.dropLiteral] at h
  | [c] =>
    simp only [hg, JS.dropLiteral] at h
    split_ifs at h <;> simp at h
  | c :: d :: rest =>
    simp only [hg, JS.dropLiteral] at h
    split_ifs at h with h1 h2
    · exact ⟨rest, by rw [← h1, ← h2]⟩
    · simp at h
    · simp at h

theorem StockfishBridge.postMessage_go (b : StockfishBridge) (g : String)
    (h : JS.startsWith g "go" = true) : b.postMessage g = b.handleGo g := by
  obtain ⟨rest, hg⟩ := JS.startsWith_go_data g h
  have h1 : g ≠ "uci" := by
    intro e
    rw [e] at hg
    have hlit : ("uci" : String).data = ['u', 'c', 'i'] := rfl
    rw [hlit] at hg
    simp at hg
  have h2 : g ≠ "isready" := by
    intro e
    rw [e] at hg
    have hlit : ("isready" : String).data = ['i', 's', 'r', 'e', 'a', 'd', 'y'] := rfl
    rw [hlit] at hg
    simp at hg
  have h3 : JS.startsWith g "position fen" = false := by
    unfold JS.startsWith
    have hlit : ("position fen" : String).data
        = 'p' :: ("osition fen" : String).data := rfl
    rw [hg, hlit]
    simp [JS.dropLiteral]
  unfold StockfishBridge.postMessage
  simp [h1, h2, h3, h]

theorem JS.startsWith_bestmove_append (x : String) :
    JS.startsWith ("bestmove " ++ x) "bestmove" = true := by
  unfold JS.startsWith
  have hd : ("bestmove " ++ x).data = ("bestmove " : String).data ++ x.data :=
    String.data_append _ _
  rw [hd]
  have h1 : ("bestmove " : String).data = ['b', 'e', 's', 't', 'm', 'o', 'v', 'e', ' '] := rfl
  have h2 : ("bestmove" : String).data = ['b', 'e', 's', 't', 'm', 'o', 'v', 'e'] := rfl
  rw [h1, h2]
  simp [JS.dropLiteral]

/-! ## Overlapping searches and termination on the bridge -/

/-- C4, as stated, fails: on a bridge with a consumer, a second `go` posted before the
first search timer has fired arms a second timer, and once both have fired two
`bestmove` messages have been delivered, not one. -/
theorem StockfishBridge.second_go_not_noop :
    ((StockfishBridge.run (StockfishBridge.new.onMessage (some 1))
        [.postMessage "go depth 15", .postMessage "go depth 15"]).1.timers.length = 2)
      ∧ ¬ ((StockfishBridge.bestmoves
          (StockfishBridge.run (StockfishBridge.new.onMessage (some 1))
            [.postMessage "go depth 15", .postMessage "go depth 15",
             .fire 0 ⟨0, by decide⟩, .fire 0 ⟨0, by decide⟩]).2).length = 1) := by
  decide

/-- C4, amended: two `go` commands posted back-to-back to a bridge with a consumer and no
pending timer each arm their own search timer, and once both timers have fired (in
either order) exactly two messages have been delivered to the consumer, both `bestmove`
messages. -/
theorem StockfishBridge.two_go_two_bestmove (b : StockfishBridge) (cb : Callback)
    (g1 g2 : String) (r1 r2 : JS.Draw) (i : Nat)
    (hcb : b.callbacks.message = some cb) (ht : b.timers = [])
    (h1 : JS.startsWith g1 "go" = true) (h2 : JS.startsWith g2 "go" = true)
    (hi : i ≤ 1) :
    ((b.postMessage g1).postMessage g2).timers
        = [{ kind := .go, delay := StockfishBridge.thinkTime g1 },
           { kind := .go, delay := StockfishBridge.thinkTime g2 }]
      ∧ (StockfishBridge.run b
          [.postMessage g1, .postMessage g2, .fire i r1, .fire 0 r2]).1.timers = []
      ∧ (∃ m1 m2, (StockfishBridge.run b
          [.postMessage g1, .postMessage g2, .fire i r1, .fire 0 r2]).2
            = [(cb, "bestmove " ++ m1), (cb, "bestmove " ++ m2)])
      ∧ (StockfishBridge.bestmoves (StockfishBridge.run b
          [.postMessage g1, .postMessage g2, .fire i r1, .fire 0 r2]).2).length = 2 := by
  have hi' : i = 0 ∨ i = 1 := by omega
  refine ⟨?_, ?_, ?_, ?_⟩
  · rw [StockfishBridge.postMessage_go _ _ h1, StockfishBridge.postMessage_go _ _ h2]
    simp [StockfishBridge.handleGo, ht]
  · rcases hi' with rfl | rfl <;>
      simp [StockfishBridge.run, StockfishBridge.step, StockfishBridge.fire,
        StockfishBridge.postMessage_go _ _ h1, StockfishBridge.postMessage_go _ _ h2,
        StockfishBridge.handleGo, ht]
  · rcases hi' with rfl | rfl <;>
      simp [StockfishBridge.run, StockfishBridge.step, StockfishBridge.fire,
        StockfishBridge.postMessage_go _ _ h1, StockfishBridge.postMessage_go _ _ h2,
        StockfishBridge.handleGo, ht, StockfishBridge.timerMessages,
        StockfishBridge.sendMessage, hcb]
  · rcases hi' with rfl | rfl <;>
      simp [StockfishBridge.run, StockfishBridge.step, StockfishBridge.fire,
        StockfishBridge.postMessage_go _ _ h1, StockfishBridge.postMessage_go _ _ h2,
        StockfishBridge.handleGo, ht, StockfishBridge.timerMessages,
        StockfishBridge.sendMessage, hcb, StockfishBridge.bestmoves,
        JS.startsWith_bestmove_append]

theorem StockfishBridge.two_go_two_bestmove_witness :
    (StockfishBridge.bestmoves (StockfishBridge.run (StockfishBridge.new.onMessage (some 1))
      [.postMessage "go depth 15", .postMessage "go", .fire 1 ⟨0, by decide⟩,
       .fire 0 ⟨0, by decide⟩]).2).length = 2 :=
  (StockfishBridge.two_go_two_bestmove (StockfishBridge.new.onMessage (some 1)) 1
    "go depth 15" "go" ⟨0, by decide⟩ ⟨0, by decide⟩ 1 rfl rfl (by decide) (by decide)
    (by decide)).2.2.2

theorem StockfishBridge.step_silent (b : StockfishBridge) (e : BridgeEvent)
    (hb : b.callbacks.message = none) (he : e.registers = false) :
    (StockfishBridge.step b e).1.callbacks.message = none
      ∧ (StockfishBridge.step b e).2 = [] := by
  cases e with
  | onMessage callback => simp [BridgeEvent.registers] at he
  | postMessage message =>
    refine ⟨?_, rfl⟩
    simp only [StockfishBridge.step, StockfishBridge.postMessage]
    split_ifs
    · exact hb
    · exact hb
    · simp only [StockfishBridge.handlePosition]
      split
      · split_ifs
        · exact hb
        · exact hb
      · exact hb
    · exact hb
    · exact hb
  | terminate => exact ⟨rfl, rfl⟩
  | fire i r =>
    simp only [StockfishBridge.step, StockfishBridge.fire]
    split
    · exact ⟨hb, rfl⟩
    · refine ⟨hb, ?_⟩
      simp [StockfishBridge.sendMessage, hb]

theorem StockfishBridge.run_silent (evs : List BridgeEvent) :
    ∀ b : StockfishBridge, b.callbacks.message = none →
      (∀ e ∈ evs, e.registers = false) → (StockfishBridge.run b evs).2 = [] := by
  induction evs with
  | nil => intro b _ _; rfl
  | cons e es ih =>
    intro b hb hev
    obtain ⟨h1, h2⟩ := StockfishBridge.step_silent b e hb (hev e (List.mem_cons_self _ _))
    have h3 := ih (StockfishBridge.step b e).1 h1 fun e' he' => hev e' (List.mem_cons_of_mem _ he')
    simp only [StockfishBridge.run, h2, h3, List.append_nil]

/-- C5: after `terminate()` no message is delivered.  From every bridge state, whatever
timers are pending, any sequence of timer expiries and posted commands that follows
`terminate()` (with no new registration of a consumer) invokes the consumer zero times. -/
theorem StockfishBridge.terminate_silences (b : StockfishBridge) (evs : List BridgeEvent)
    (hev : ∀ e ∈ evs, e.registers = false) :
    (StockfishBridge.run b.terminate evs).2 = [] :=
  StockfishBridge.run_silent evs b.terminate rfl hev

theorem StockfishBridge.terminate_silences_witness :
    (StockfishBridge.run
        ((StockfishBridge.new.onMessage (some 1)).postMessage "go depth 15").terminate
        [.fire 0 ⟨0, by decide⟩]).2 = [] :=
  StockfishBridge.terminate_silences
    ((StockfishBridge.new.onMessage (some 1)).postMessage "go depth 15")
    [.fire 0 ⟨0, by decide⟩] (by decide)

/-! ## The handshake precedes every search of the coordinator -/

theorem Handshaken.mono {out : List Output} (h : Handshaken out) (extra : List Output) :
    Handshaken (out ++ extra) :=
  ⟨List.mem_append_left _ h.1, List.mem_append_left _ h.2⟩

theorem SearchAfterHandshake.append {out extra : List Output}
    (h : SearchAfterHandshake out)
    (hx : ∀ o ∈ extra, o.isSearch = true → Handshaken out) :
    SearchAfterHandshake (out ++ extra) := by
  intro pre o post heq hsearch
  rcases List.append_eq_append_iff.mp heq with ⟨a, hpre, hextra⟩ | ⟨c, hout, hrest⟩
  · have hmem : o ∈ extra := by
      rw [hextra]
      exact List.mem_append_right _ (List.mem_cons_self _ _)
    rw [hpre]
    exact (hx o hmem hsearch).mono a
  · cases c with
    | nil =>
      simp only [List.nil_append] at hrest
      have hmem : o ∈ extra := by
        rw [← hrest]
        exact List.mem_cons_self _ _
      have hpre : pre = out := by simp [hout]
      rw [hpre]
      exact hx o hmem hsearch
    | cons o' c' =>
      simp only [List.cons_append, List.cons.injEq] at hrest
      obtain ⟨ho, -⟩ := hrest
      subst ho
      exact h pre o c' hout hsearch

theorem StockfishBridge.postMessage_timers (b : StockfishBridge) (message : String) :
    (b.postMessage message).timers = b.timers
      ∨ ∃ t, (b.postMessage message).timers = b.timers ++ [t] := by
  unfold StockfishBridge.postMessage
  split_ifs
  · exact Or.inr ⟨_, rfl⟩
  · exact Or.inr ⟨_, rfl⟩
  · left
    unfold StockfishBridge.handlePosition
    split
    · split_ifs <;> rfl
    · rfl
  · exact Or.inr ⟨_, rfl⟩
  · exact Or.inl rfl

theorem JS.startsWith_position_append (x : String) :
    JS.startsWith ("position fen " ++ x) "position fen" = true := by
  unfold JS.startsWith
  have hd : ("position fen " ++ x).data = ("position fen " : String).data ++ x.data :=
    String.data_append _ _
  rw [hd]
  have h1 : ("position fen " : String).data
      = ['p', 'o', 's', 'i', 't', 'i', 'o', 'n', ' ', 'f', 'e', 'n', ' '] := rfl
  have h2 : ("position fen" : String).data
      = ['p', 'o', 's', 'i', 't', 'i', 'o', 'n', ' ', 'f', 'e', 'n'] := rfl
  rw [h1, h2]
  simp [JS.dropLiteral]

theorem JS.startsWith_position_go (x : String) :
    JS.startsWith ("position fen " ++ x) "go" = false := by
  unfold JS.startsWith
  have hd : ("position fen " ++ x).data = ("position fen " : String).data ++ x.data :=
    String.data_append _ _
  rw [hd]
  have h1 : ("position fen " : String).data
      = ['p', 'o', 's', 'i', 't', 'i', 'o', 'n', ' ', 'f', 'e', 'n', ' '] := rfl
  have h2 : ("go" : String).data = ['g', 'o'] := rfl
  rw [h1, h2]
  simp [JS.dropLiteral]

theorem StockfishBridge.postMessage_position (b : StockfishBridge) (x : String) :
    b.postMessage ("position fen " ++ x) = b.handlePosition ("position fen " ++ x) := by
  have hd : ("position fen " ++ x).data = ("position fen " : String).data ++ x.data :=
    String.data_append _ _
  have hl : ("position fen " : String).data
      = ['p', 'o', 's', 'i', 't', 'i', 'o', 'n', ' ', 'f', 'e', 'n', ' '] := rfl
  rw [hl] at hd
  have h1 : "position fen " ++ x ≠ "uci" := by
    intro e
    rw [e] at hd
    have hlit : ("uci" : String).data = ['u', 'c', 'i'] := rfl
    rw [hlit] at hd
    simp at hd
  have h2 : "position fen " ++ x ≠ "isready" := by
    intro e
    rw [e] at hd
    have hlit : ("isready" : String).data = ['i', 's', 'r', 'e', 'a', 'd', 'y'] := rfl
    rw [hlit] at hd
    simp at hd
  unfold StockfishBridge.postMessage
  simp [h1, h2, JS.startsWith_position_append]

theorem StockfishBridge.handlePosition_timers (b : StockfishBridge) (message : String) :
    (b.handlePosition message).timers = b.timers := by
  unfold StockfishBridge.handlePosition
  split
  · split_ifs <;> rfl
  · rfl

theorem ChessAI.Inv.post_position {β : Type} {s : ChessAI β} {out : List Output}
    (h : ChessAI.Inv s out) (x : String) :
    ChessAI.Inv (ChessAI.post s ("position fen " ++ x)).1
      (out ++ (ChessAI.post s ("position fen " ++ x)).2) := by
  have ht : (ChessAI.post s ("position fen " ++ x)).1.stockfish.timers = s.stockfish.timers := by
    simp [ChessAI.post, StockfishBridge.postMessage_position,
      StockfishBridge.handlePosition_timers]
  refine ⟨fun hr => (h.ready hr).mono _, fun hg => ?_, fun hi => ?_, ?_⟩
  · rw [ht] at hg
    exact (h.goTimer hg).mono _
  · rw [ht] at hi
    exact List.mem_append_left _ (h.isreadyTimer hi)
  · apply h.ordered.append
    intro o hmem hsearch
    simp only [ChessAI.post, List.mem_singleton] at hmem
    subst hmem
    simp [Output.isSearch, JS.startsWith_position_go] at hsearch

theorem ChessAI.Inv.engine {β : Type} {s : ChessAI β} {out : List Output}
    (h : ChessAI.Inv s out) (e : ChessEngine β) : ChessAI.Inv { s with engine := e } out :=
  ⟨h.ready, h.goTimer, h.isreadyTimer, h.ordered⟩

theorem ChessAI.handleStockfishMessage_effect {β : Type} (lib : ChessJs β) (s : ChessAI β)
    (message : String) (r : JS.Draw) :
    (∀ o ∈ (ChessAI.handleStockfishMessage lib s message r).2, o.isSearch = false)
      ∧ ((ChessAI.handleStockfishMessage lib s message r).1.stockfish.timers
            = s.stockfish.timers
          ∨ (message = "uciok"
            ∧ (ChessAI.handleStockfishMessage lib s message r).1.stockfish.timers
              = s.stockfish.timers ++ [{ kind := .isready, delay := 100 }]))
      ∧ ((ChessAI.handleStockfishMessage lib s message r).1.isReady = s.isReady
          ∨ message = "readyok") := by
  unfold ChessAI.handleStockfishMessage ChessAI.post ChessAI.callBestMove
  simp only
  split_ifs with h1 h2 h3
  · refine ⟨by simp [Output.isSearch]; decide, Or.inr ⟨h1, ?_⟩, Or.inl rfl⟩
    simp [StockfishBridge.postMessage, StockfishBridge.handleIsReady]
  · split
    · exact ⟨by simp [Output.isSearch], Or.inl rfl, Or.inr h2⟩
    · exact ⟨by simp [Output.isSearch], Or.inl rfl, Or.inr h2⟩
  · split
    · split_ifs
      · split
        · exact ⟨by simp [Output.isSearch], Or.inl rfl, Or.inl rfl⟩
        · exact ⟨by simp [Output.isSearch], Or.inl rfl, Or.inl rfl⟩
      · split
        · split
          · exact ⟨by simp [Output.isSearch], Or.inl rfl, Or.inl rfl⟩
          · exact ⟨by simp [Output.isSearch], Or.inl rfl, Or.inl rfl⟩
        · exact ⟨by simp [Output.isSearch], Or.inl rfl, Or.inl rfl⟩
    · exact ⟨by simp [Output.isSearch], Or.inl rfl, Or.inl rfl⟩
  · exact ⟨by simp [Output.isSearch], Or.inl rfl, Or.inl rfl⟩

theorem ChessAI.Inv.sendMessage {β : Type} (lib : ChessJs β) {s : ChessAI β}
    {out : List Output} (h : ChessAI.Inv s out) (message : String) (r : JS.Draw)
    (hbest : JS.startsWith message "bestmove" = true → Handshaken out)
    (hready : message = "readyok" → Output.message "uciok" ∈ out) :
    ChessAI.Inv (ChessAI.sendMessage lib s message r).1
      (out ++ (ChessAI.sendMessage lib s message r).2) := by
  unfold ChessAI.sendMessage
  split
  · obtain ⟨hno, htimers, hisReady⟩ := ChessAI.handleStockfishMessage_effect lib s message r
    simp only
    have hdeliv : Output.message message ∈
        out ++ Output.message message :: (ChessAI.handleStockfishMessage lib s message r).2 :=
      List.mem_append_right _ (List.mem_cons_self _ _)
    refine ⟨fun hr => ?_, fun hg => ?_, fun hi => ?_, ?_⟩
    · rcases hisReady with he | he
      · rw [he] at hr
        exact (h.ready hr).mono _
      · subst he
        exact ⟨List.mem_append_left _ (hready rfl), hdeliv⟩
    · rcases htimers with he | ⟨-, he⟩
      · rw [he] at hg
        exact (h.goTimer hg).mono _
      · rw [he] at hg
        obtain ⟨t, ht, hk⟩ := hg
        rcases List.mem_append.mp ht with ht | ht
        · exact (h.goTimer ⟨t, ht, hk⟩).mono _
        · simp only [List.mem_singleton] at ht
          subst ht
          simp at hk
    · rcases htimers with he | ⟨hm, he⟩
      · rw [he] at hi
        exact List.mem_append_left _ (h.isreadyTimer hi)
      · subst hm
        exact hdeliv
    · apply h.ordered.append
      intro o hmem hsearch
      rcases List.mem_cons.mp hmem with he | he
      · subst he
        exact hbest hsearch
      · rw [hno o he] at hsearch
        exact absurd hsearch (by decide)
  · simpa using h

theorem ChessAI.Inv.sendAll {β : Type} (lib : ChessJs β) (r : JS.Draw)
    (msgs : List String) :
    ∀ {s : ChessAI β} {out : List Output}, ChessAI.Inv s out →
      (∀ m ∈ msgs, (JS.startsWith m "bestmove" = true → Handshaken out)
        ∧ (m = "readyok" → Output.message "uciok" ∈ out)) →
      ChessAI.Inv (ChessAI.sendAll lib s r msgs).1 (out ++ (ChessAI.sendAll lib s r msgs).2) := by
  induction msgs with
  | nil =>
    intro s out h _
    simpa [ChessAI.sendAll] using h
  | cons m ms ih =>
    intro s out h hm
    obtain ⟨hb, hr⟩ := hm m (List.mem_cons_self _ _)
    have h1 := h.sendMessage lib m r hb hr
    have h2 := ih h1 fun m' hm' =>
      ⟨fun hs => ((hm m' (List.mem_cons_of_mem _ hm')).1 hs).mono _,
       fun he => List.mem_append_left _ ((hm m' (List.mem_cons_of_mem _ hm')).2 he)⟩
    simpa [ChessAI.sendAll, List.append_assoc] using h2

theorem ChessAI.Inv.fire {β : Type} (lib : ChessJs β) {s : ChessAI β} {out : List Output}
    (h : ChessAI.Inv s out) (i : Nat) (r1 r2 : JS.Draw) :
    ChessAI.Inv (ChessAI.fire lib s i r1 r2).1 (out ++ (ChessAI.fire lib s i r1 r2).2) := by
  unfold ChessAI.fire
  split
  · simpa using h
  · rename_i t ht
    have hmem : t ∈ s.stockfish.timers := List.getElem?_mem ht
    have herase : ChessAI.Inv
        { s with stockfish := { s.stockfish with timers := s.stockfish.timers.eraseIdx i } }
        out :=
      ⟨h.ready,
       fun ⟨t', ht', hk⟩ => h.goTimer ⟨t', List.mem_of_mem_eraseIdx ht', hk⟩,
       fun ⟨t', ht', hk⟩ => h.isreadyTimer ⟨t', List.mem_of_mem_eraseIdx ht', hk⟩,
       h.ordered⟩
    apply herase.sendAll lib r2
    intro m hm
    cases hk : t.kind with
    | uci =>
      simp only [hk, StockfishBridge.timerMessages, List.mem_cons, List.mem_singleton,
        List.not_mem_nil, or_false] at hm
      rcases hm with rfl | rfl | rfl
      · exact ⟨fun hs => absurd hs (by decide), fun he => absurd he (by decide)⟩
      · exact ⟨fun hs => absurd hs (by decide), fun he => absurd he (by decide)⟩
      · exact ⟨fun hs => absurd hs (by decide), fun he => absurd he (by decide)⟩
    | isready =>
      simp only [hk, StockfishBridge.timerMessages, List.mem_singleton] at hm
      subst hm
      exact ⟨fun hs => absurd hs (by decide), fun _ => h.isreadyTimer ⟨t, hmem, hk⟩⟩
    | go =>
      exact ⟨fun _ => h.goTimer ⟨t, hmem, hk⟩, fun _ => (h.goTimer ⟨t, hmem, hk⟩).1⟩

theorem ChessAI.Inv.post_handshaken {β : Type} {s : ChessAI β} {out : List Output}
    (h : ChessAI.Inv s out) (hh : Handshaken out) (command : String) :
    ChessAI.Inv (ChessAI.post s command).1 (out ++ (ChessAI.post s command).2) := by
  refine ⟨fun _ => hh.mono _, fun _ => hh.mono _, fun _ => (hh.mono _).1, ?_⟩
  exact h.ordered.append fun _ _ _ => hh

theorem ChessAI.Inv.init {β : Type} {s : ChessAI β} {out : List Output}
    (h : ChessAI.Inv s out) :
    ChessAI.Inv (ChessAI.init s).1 (out ++ (ChessAI.init s).2) := by
  have ht : (ChessAI.init s).1.stockfish.timers
      = s.stockfish.timers ++ [{ kind := .uci, delay := 100 }] := by
    simp [ChessAI.init, ChessAI.post, StockfishBridge.postMessage, StockfishBridge.handleUCI]
  refine ⟨fun hr => (h.ready hr).mono _, fun hg => ?_, fun hi => ?_, ?_⟩
  · rw [ht] at hg
    obtain ⟨t, hmem, hk⟩ := hg
    rcases List.mem_append.mp hmem with hmem | hmem
    · exact (h.goTimer ⟨t, hmem, hk⟩).mono _
    · simp only [List.mem_singleton] at hmem
      subst hmem
      simp at hk
  · rw [ht] at hi
    obtain ⟨t, hmem, hk⟩ := hi
    rcases List.mem_append.mp hmem with hmem | hmem
    · exact List.mem_append_left _ (h.isreadyTimer ⟨t, hmem, hk⟩)
    · simp only [List.mem_singleton] at hmem
      subst hmem
      simp at hk
  · apply h.ordered.append
    intro o hmem hsearch
    simp only [ChessAI.init, ChessAI.post, List.mem_singleton] at hmem
    subst hmem
    exact absurd hsearch (by decide)

theorem ChessAI.Inv.step {β : Type} (lib : ChessJs β) {s : ChessAI β} {out : List Output}
    (h : ChessAI.Inv s out) (e : Event) :
    ChessAI.Inv (ChessAI.step lib s e).1 (out ++ (ChessAI.step lib s e).2) := by
  cases e with
  | init => exact h.init
  | setSearchDepth depth =>
    simpa [ChessAI.step, ChessAI.setSearchDepth] using
      (⟨h.ready, h.goTimer, h.isreadyTimer, h.ordered⟩ :
        ChessAI.Inv { s with searchDepth := depth } out)
  | setPosition fen =>
    simp only [ChessAI.step, ChessAI.setPosition]
    split
    · exact (h.engine _).post_position fen
    · simpa using h.engine _
  | makeMove move =>
    simp only [ChessAI.step, ChessAI.makeMove]
    split
    · exact (h.engine _).post_position _
    · simpa using h.engine _
  | getBestMove callback =>
    simp only [ChessAI.step, ChessAI.getBestMove]
    split_ifs with hc
    · simpa using h
    · have hr : s.isReady = true := by
        cases hs : s.isReady
        · simp [hs] at hc
        · rfl
      have h1 : ChessAI.Inv
          { s with callbacks := { s.callbacks with bestMove := callback }, isThinking := true }
          out := ⟨h.ready, h.goTimer, h.isreadyTimer, h.ordered⟩
      exact h1.post_handshaken (h.ready hr) _
  | reset =>
    simp only [ChessAI.step, ChessAI.reset]
    exact (h.engine _).post_position _
  | onReady callback =>
    have h1 : ChessAI.Inv { s with callbacks := { s.callbacks with ready := callback } } out :=
      ⟨h.ready, h.goTimer, h.isreadyTimer, h.ordered⟩
    simp only [ChessAI.step, ChessAI.onReady]
    split_ifs
    · split
      · refine ⟨fun hr => (h1.ready hr).mono _, fun hg => (h1.goTimer hg).mono _,
          fun hi => List.mem_append_left _ (h1.isreadyTimer hi), ?_⟩
        apply h1.ordered.append
        intro o hmem hsearch
        simp only [List.mem_singleton] at hmem
        subst hmem
        simp [Output.isSearch] at hsearch
      · simpa using h1
    · simpa using h1
  | terminate =>
    simpa [ChessAI.step, ChessAI.terminate] using
      (⟨h.ready, h.goTimer, h.isreadyTimer, h.ordered⟩ :
        ChessAI.Inv { s with stockfish := s.stockfish.terminate,
                             callbacks := { ready := none, bestMove := none } } out)
  | fire i r1 r2 => exact h.fire lib i r1 r2

theorem ChessAI.Inv.run {β : Type} (lib : ChessJs β) (evs : List Event) :
    ∀ {s : ChessAI β} {out : List Output}, ChessAI.Inv s out →
      ChessAI.Inv (ChessAI.run lib s evs).1 (out ++ (ChessAI.run lib s evs).2) := by
  induction evs with
  | nil =>
    intro s out h
    simpa [ChessAI.run] using h
  | cons e es ih =>
    intro s out h
    have h2 := ih (h.step lib e)
    simpa [ChessAI.run, List.append_assoc] using h2

theorem ChessAI.Inv.new {β : Type} (lib : ChessJs β) : ChessAI.Inv (ChessAI.new lib) [] := by
  refine ⟨fun hr => ?_, fun hg => ?_, fun hi => ?_, ?_⟩
  · simp [ChessAI.new] at hr
  · simp [ChessAI.new, StockfishBridge.new, StockfishBridge.onMessage] at hg
  · simp [ChessAI.new, StockfishBridge.new, StockfishBridge.onMessage] at hi
  · intro pre o post heq
    simp at heq

/-- C6, as stated, fails: a `go` posted to a freshly constructed bridge, before any
handshake, is answered: the only message the consumer ever receives is a `bestmove`. -/
theorem StockfishBridge.go_before_handshake_answered :
    (StockfishBridge.run (StockfishBridge.new.onMessage (some 1))
        [.postMessage "go", .fire 0 ⟨0, by decide⟩]).2 = [(1, "bestmove e2e4")] := by
  decide

/-- C6, amended: in every execution of a coordinator from construction, for any sequence
of calls of its methods and timer expiries, every `bestmove` message its bridge delivers
and every `go` command it posts to the bridge is preceded by the delivery of both
handshake responses `uciok` and `readyok`. -/
theorem ChessAI.search_after_handshake {β : Type} (lib : ChessJs β) (evs : List Event)
    (pre : List Output) (o : Output) (post : List Output)
    (hout : (ChessAI.run lib (ChessAI.new lib) evs).2 = pre ++ o :: post)
    (hsearch : (∃ msg, o = .message msg ∧ JS.startsWith msg "bestmove" = true)
      ∨ (∃ command, o = .posted command ∧ JS.startsWith command "go" = true)) :
    Output.message "uciok" ∈ pre ∧ Output.message "readyok" ∈ pre := by
  have h := (ChessAI.Inv.new lib).run lib evs
  simp only [List.nil_append] at h
  apply h.ordered pre o post hout
  rcases hsearch with ⟨msg, rfl, hm⟩ | ⟨command, rfl, hc⟩
  · exact hm
  · exact hc

theorem ChessAI.search_after_handshake_witness :
    Output.message "uciok" ∈
        [Output.posted "uci", .message "id name Stockfish 17 Local",
         .message "id author The Stockfish Team", .message "uciok", .posted "isready",
         .message "readyok", .posted "go depth 15"]
      ∧ Output.message "readyok" ∈
        [Output.posted "uci", .message "id name Stockfish 17 Local",
         .message "id author The Stockfish Team", .message "uciok", .posted "isready",
         .message "readyok", .posted "go depth 15"] :=
  ChessAI.search_after_handshake TableChess.lib
    [.init, .fire 0 ⟨0, by decide⟩ ⟨0, by decide⟩, .fire 0 ⟨0, by decide⟩ ⟨0, by decide⟩,
     .getBestMove (some 7), .fire 0 ⟨0, by decide⟩ ⟨0, by decide⟩]
    [Output.posted "uci", .message "id name Stockfish 17 Local",
     .message "id author The Stockfish Team", .message "uciok", .posted "isready",
     .message "readyok", .posted "go depth 15"]
    (.message "bestmove e2e4") [.bestMove 7 (.str "e2e4")] (by decide)
    (Or.inl ⟨"bestmove e2e4", rfl, by decide⟩)

/-! ## The thinking time of a search -/

theorem JS.parseInt_eq_decimalValue (digits : List Char) :
    JS.parseInt digits = decimalValue digits := by
  unfold JS.parseInt decimalValue
  rw [Nat.ofDigits_eq_foldr, List.map_reverse, List.foldr_reverse, List.foldl_map]
  congr 1
  funext acc c
  simp [Nat.add_comm]

theorem JS.isDigit_not_isWhiteSpace (c : Char) (h : JS.isDigit c = true) :
    JS.isWhiteSpace c = false := by
  unfold JS.isDigit at h
  unfold JS.isWhiteSpace
  simp only [Bool.and_eq_true, decide_eq_true_eq] at h
  simp only [Bool.or_eq_false_iff, Bool.and_eq_false_imp, decide_eq_true_eq,
    decide_eq_false_iff_not]
  omega

theorem JS.dropLiteral_append (lit s : List Char) :
    JS.dropLiteral lit (lit ++ s) = some s := by
  induction lit with
  | nil => cases s <;> rfl
  | cons l lit ih => simp [JS.dropLiteral, ih]

theorem JS.dropLiteral_eq_some (lit s rest : List Char)
    (h : JS.dropLiteral lit s = some rest) : s = lit ++ rest := by
  induction lit generalizing s with
  | nil =>
    cases s <;> simp [JS.dropLiteral] at h <;> simp [h]
  | cons l lit ih =>
    cases s with
    | nil => simp [JS.dropLiteral] at h
    | cons c s =>
      simp only [JS.dropLiteral] at h
      split_ifs at h with hc
      rw [hc, ih s h]
      rfl

theorem JS.matchDepth_of_begins (s digits : List Char) (h : BeginsWithDepth s digits) :
    JS.matchLitSepRun "depth".data JS.isWhiteSpace JS.isDigit s = some digits := by
  obtain ⟨ws, rest, hs, hws, hwsAll, hd, hdAll, hrest⟩ := h
  obtain ⟨w, ws', rfl⟩ := List.exists_cons_of_ne_nil hws
  obtain ⟨d, ds', rfl⟩ := List.exists_cons_of_ne_nil hd
  have hdw : ¬ JS.isWhiteSpace d = true := by
    rw [JS.isDigit_not_isWhiteSpace d (hdAll d (List.mem_cons_self _ _))]
    simp
  have hrestTake : List.takeWhile JS.isDigit rest = [] := by
    cases rest with
    | nil => rfl
    | cons c rest' =>
      have := hrest c (by simp)
      simp [List.takeWhile_cons, this]
  unfold JS.matchLitSepRun
  rw [hs, List.append_assoc, List.append_assoc, JS.dropLiteral_append]
  simp only
  rw [List.takeWhile_append_of_pos hwsAll, List.dropWhile_append_of_pos hwsAll]
  have h1 : List.takeWhile JS.isWhiteSpace (d :: ds' ++ rest) = [] := by
    simp [List.takeWhile_cons, hdw]
  have h2 : List.dropWhile JS.isWhiteSpace (d :: ds' ++ rest) = d :: ds' ++ rest := by
    simp [List.dropWhile_cons, hdw]
  rw [h1, h2, List.takeWhile_append_of_pos hdAll, hrestTake]
  simp

theorem JS.begins_of_matchDepth (s digits : List Char)
    (h : JS.matchLitSepRun "depth".data JS.isWhiteSpace JS.isDigit s = some digits) :
    BeginsWithDepth s digits := by
  unfold JS.matchLitSepRun at h
  split at h
  · simp at h
  · rename_i rest hdrop
    simp only at h
    split_ifs at h with hws hcap
    simp only [Option.some.injEq] at h
    refine ⟨rest.takeWhile JS.isWhiteSpace,
      (rest.dropWhile JS.isWhiteSpace).dropWhile JS.isDigit, ?_, ?_, ?_, ?_, ?_, ?_⟩
    · rw [JS.dropLiteral_eq_some _ _ _ hdrop, ← h, List.append_assoc, List.append_assoc,
        List.takeWhile_append_dropWhile, List.takeWhile_append_dropWhile]
    · intro e
      simp [e] at hws
    · intro c hc
      exact List.mem_takeWhile_imp hc
    · intro e
      rw [← h] at e
      simp [e] at hcap
    · intro c hc
      rw [← h] at hc
      exact List.mem_takeWhile_imp hc
    · intro c hc
      have := List.head?_dropWhile_not JS.isDigit (List.dropWhile JS.isWhiteSpace rest)
      rw [Option.mem_def] at hc
      rw [hc] at this
      simpa using this

theorem JS.firstMatch_of_head {α : Type} (f : List Char → Option α) (s : List Char) (a : α)
    (h : f s = some a) : JS.firstMatch f s = some a := by
  cases s with
  | nil => simpa [JS.firstMatch] using h
  | cons c s => simp [JS.firstMatch, h]

theorem JS.firstMatch_skip {α : Type} (f : List Char → Option α) (pre suf : List Char)
    (h : ∀ p1 p2, pre = p1 ++ p2 → p2 ≠ [] → f (p2 ++ suf) = none) :
    JS.firstMatch f (pre ++ suf) = JS.firstMatch f suf := by
  induction pre with
  | nil => rfl
  | cons c t ih =>
    have h0 : f (c :: t ++ suf) = none := h [] (c :: t) rfl (by simp)
    have ht : JS.firstMatch f (t ++ suf) = JS.firstMatch f suf :=
      ih fun p1 p2 hp hne => h (c :: p1) p2 (by simp [hp]) hne
    simp only [List.cons_append] at h0 ⊢
    simp [JS.firstMatch, h0, ht]

theorem JS.firstMatch_isSome {α : Type} (f : List Char → Option α) (pre suf : List Char)
    (h : (f suf).isSome = true) : (JS.firstMatch f (pre ++ suf)).isSome = true := by
  induction pre with
  | nil =>
    obtain ⟨a, ha⟩ := Option.isSome_iff_exists.mp h
    simp [JS.firstMatch_of_head f suf a ha]
  | cons c t ih =>
    simp only [List.cons_append, JS.firstMatch]
    split
    · rfl
    · exact ih

theorem JS.firstMatch_eq_some {α : Type} (f : List Char → Option α) (s : List Char) (a : α)
    (h : JS.firstMatch f s = some a) :
    ∃ pre suf, s = pre ++ suf ∧ f suf = some a
      ∧ ∀ p1 p2, pre = p1 ++ p2 → p2 ≠ [] → f (p2 ++ suf) = none := by
  induction s with
  | nil =>
    refine ⟨[], [], rfl, by simpa [JS.firstMatch] using h, ?_⟩
    intro p1 p2 hp hne
    simp at hp
    exact absurd hp.2 hne
  | cons c t ih =>
    simp only [JS.firstMatch] at h
    split at h
    · rename_i b hb
      simp only [Option.some.injEq] at h
      subst h
      refine ⟨[], c :: t, rfl, hb, ?_⟩
      intro p1 p2 hp hne
      simp at hp
      exact absurd hp.2 hne
    · rename_i hnone
      obtain ⟨pre, suf, hs, hf, hfirst⟩ := ih h
      refine ⟨c :: pre, suf, by simp [hs], hf, ?_⟩
      intro p1 p2 hp hne
      cases p1 with
      | nil =>
        simp only [List.nil_append] at hp
        rw [← hp, List.cons_append, ← hs]
        exact hnone
      | cons c' p1' =>
        simp only [List.cons_append, List.cons.injEq] at hp
        exact hfirst p1' p2 hp.2 hne

theorem StockfishBridge.commandDepth_goDepth (message : String) :
    CommandDepth message (StockfishBridge.goDepth message) := by
  unfold StockfishBridge.goDepth
  cases hm : StockfishBridge.matchDepth message with
  | none =>
    have hno : ∀ pre suf digits, message.data = pre ++ suf → ¬ BeginsWithDepth suf digits := by
      intro pre suf digits hs hp
      have h1 := JS.firstMatch_isSome
        (JS.matchLitSepRun "depth".data JS.isWhiteSpace JS.isDigit) pre suf
        (by rw [JS.matchDepth_of_begins suf digits hp]; rfl)
      unfold StockfishBridge.matchDepth at hm
      rw [← hs, hm] at h1
      simp at h1
    right
    refine ⟨hno, ?_⟩
    split_ifs <;> rfl
  | some digits =>
    unfold StockfishBridge.matchDepth at hm
    obtain ⟨pre, suf, hs, hf, hfirst⟩ := JS.firstMatch_eq_some _ _ _ hm
    have hp := JS.begins_of_matchDepth suf digits hf
    have hinc : JS.includes message "depth" = true := by
      unfold JS.includes
      rw [hs]
      apply JS.firstMatch_isSome
      obtain ⟨ws, rest, hsuf, -⟩ := hp
      rw [hsuf, List.append_assoc, List.append_assoc, JS.dropLiteral_append]
      rfl
    left
    refine ⟨pre, suf, digits, hs, hp, ?_, ?_⟩
    · intro p1 p2 digits' hpre hne hp'
      have := hfirst p1 p2 hpre hne
      rw [JS.matchDepth_of_begins _ _ hp'] at this
      simp at this
    · simp [hinc, JS.parseInt_eq_decimalValue]

theorem StockfishBridge.goDepth_of_commandDepth (message : String) (d : Nat)
    (h : CommandDepth message d) : StockfishBridge.goDepth message = d := by
  rcases h with ⟨pre, suf, digits, hs, hp, hfirst, rfl⟩ | ⟨hno, rfl⟩
  · have hinc : JS.includes message "depth" = true := by
      unfold JS.includes
      rw [hs]
      apply JS.firstMatch_isSome
      obtain ⟨ws, rest, hsuf, -⟩ := hp
      rw [hsuf, List.append_assoc, List.append_assoc, JS.dropLiteral_append]
      rfl
    have hm : StockfishBridge.matchDepth message = some digits := by
      unfold StockfishBridge.matchDepth
      rw [hs, JS.firstMatch_skip]
      · exact JS.firstMatch_of_head _ _ _ (JS.matchDepth_of_begins suf digits hp)
      · intro p1 p2 hpre hne
        cases hf : JS.matchLitSepRun "depth".data JS.isWhiteSpace JS.isDigit (p2 ++ suf) with
        | none => rfl
        | some digits' =>
          exact absurd (JS.begins_of_matchDepth _ _ hf) (hfirst p1 p2 digits' hpre hne)
    simp [StockfishBridge.goDepth, hinc, hm, JS.parseInt_eq_decimalValue]
  · have hm : StockfishBridge.matchDepth message = none := by
      cases hf : StockfishBridge.matchDepth message with
      | none => rfl
      | some digits =>
        unfold StockfishBridge.matchDepth at hf
        obtain ⟨pre, suf, hs, hsuf, -⟩ := JS.firstMatch_eq_some _ _ _ hf
        exact absurd (JS.begins_of_matchDepth _ _ hsuf) (hno pre suf digits hs)
    simp only [StockfishBridge.goDepth, hm]
    split_ifs <;> rfl

theorem StockfishBridge.commandDepth_go_depth_5 : CommandDepth "go depth 5" 5 := by
  left
  refine ⟨"go ".data, "depth 5".data, "5".data, rfl, ⟨" ".data, [], rfl, by decide,
    by decide, by decide, by decide, by simp⟩, ?_, ?_⟩
  · intro p1 p2 digits' hpre hne hp
    obtain ⟨ws, rest, hs, -⟩ := hp
    obtain ⟨c, p2', rfl⟩ := List.exists_cons_of_ne_nil hne
    have hc : c ∈ ("go " : String).data := by
      rw [hpre]
      simp
    have hd : c = 'd' := by
      have hlit : ("depth" : String).data = ['d', 'e', 'p', 't', 'h'] := rfl
      rw [hlit] at hs
      simp only [List.cons_append, List.cons.injEq] at hs
      exact hs.1
    subst hd
    exact absurd hc (by decide)
  · simp [decimalValue]

/-- C7: for every `go` command the delay that `_handleGo` arms is
`min(300 + 100*d, 3000)` milliseconds, where `d` is the decimal number that follows
`depth` and whitespace at the first place of the command where there is one, and 15 when
there is none; such a `d` exists for every command, depth 0 gives 300 and every depth of
27 or more gives 3000. -/
theorem StockfishBridge.handleGo_delay (b : StockfishBridge) (message : String) :
    (∃ d, CommandDepth message d)
      ∧ ∀ d, CommandDepth message d →
        (b.handleGo message).timers
            = b.timers ++ [{ kind := .go, delay := min (300 + 100 * d) 3000 }]
          ∧ (d = 0 → StockfishBridge.thinkTime message = 300)
          ∧ (27 ≤ d → StockfishBridge.thinkTime message = 3000)
          ∧ StockfishBridge.thinkTime "go" = 1800
          ∧ StockfishBridge.thinkTime "go depth abc" = 1800
          ∧ StockfishBridge.thinkTime "go depth 5" = 800
          ∧ StockfishBridge.thinkTime "go depth 0" = 300 := by
  refine ⟨⟨_, StockfishBridge.commandDepth_goDepth message⟩, ?_⟩
  intro d hd
  have hgo := StockfishBridge.goDepth_of_commandDepth message d hd
  have ht : StockfishBridge.thinkTime message = min (300 + 100 * d) 3000 := by
    unfold StockfishBridge.thinkTime
    rw [hgo, Nat.mul_comm]
  refine ⟨?_, ?_, ?_, by decide, by decide, by decide, by decide⟩
  · simp [StockfishBridge.handleGo, ht]
  · intro h0
    rw [ht, h0]
    rfl
  · intro h27
    rw [ht]
    omega

theorem StockfishBridge.handleGo_delay_witness :
    (StockfishBridge.new.handleGo "go depth 5").timers
      = StockfishBridge.new.timers ++ [{ kind := .go, delay := min (300 + 100 * 5) 3000 }] :=
  ((StockfishBridge.handleGo_delay StockfishBridge.new "go depth 5").2 5
    StockfishBridge.commandDepth_go_depth_5).1

/-! ## The move selection of the bridge -/

theorem JS.splitSpace_ne_nil (s : List Char) : JS.splitSpace s ≠ [] := by
  cases s with
  | nil => simp [JS.splitSpace]
  | cons c s =>
    simp only [JS.splitSpace]
    split_ifs
    · simp
    · split <;> simp

theorem JS.splitSpace_field (field : List Char) (h : ' ' ∉ field) :
    JS.splitSpace field = [field] := by
  induction field with
  | nil => rfl
  | cons c t ih =>
    have hc : c ≠ ' ' := fun e => h (e ▸ List.mem_cons_self _ _)
    have ht : ' ' ∉ t := fun e => h (List.mem_cons_of_mem _ e)
    simp [JS.splitSpace, hc, ih ht]

theorem JS.splitSpace_append (first rest : List Char) (h : ' ' ∉ first) :
    JS.splitSpace (first ++ ' ' :: rest) = first :: JS.splitSpace rest := by
  induction first with
  | nil => simp [JS.splitSpace]
  | cons c t ih =>
    have hc : c ≠ ' ' := fun e => h (e ▸ List.mem_cons_self _ _)
    have ht : ' ' ∉ t := fun e => h (List.mem_cons_of_mem _ e)
    simp [JS.splitSpace, hc, ih ht]

theorem JS.splitSpace_second (s field : List Char) (h : SecondField s field) :
    ∃ first rest, JS.splitSpace s = first :: field :: rest := by
  obtain ⟨first, tail, hs, hfirst, hfield, htail⟩ := h
  refine ⟨first, ?_⟩
  have hs' : s = first ++ ' ' :: (field ++ tail) := by simp [hs]
  rw [hs', JS.splitSpace_append _ _ hfirst]
  rcases htail with rfl | ⟨t, rfl⟩
  · exact ⟨[], by rw [List.append_nil, JS.splitSpace_field _ hfield]⟩
  · exact ⟨JS.splitSpace t, by rw [JS.splitSpace_append _ _ hfield]⟩

theorem StockfishBridge.currentTurn_of_second (b : StockfishBridge) (field : List Char)
    (h : SecondField b.currentPosition.data field) :
    StockfishBridge.currentTurn b = String.mk field := by
  obtain ⟨first, rest, hsplit⟩ := JS.splitSpace_second _ _ h
  simp [StockfishBridge.currentTurn, hsplit]

theorem List.lookup_some_mem_keys {α β : Type} [BEq α] [LawfulBEq α] (k : α) (v : β)
    (l : List (α × β)) (h : l.lookup k = some v) : k ∈ l.map Prod.fst := by
  induction l with
  | nil => simp [List.lookup] at h
  | cons p t ih =>
    obtain ⟨a, b⟩ := p
    simp only [List.lookup] at h
    split at h
    · rename_i heq
      simp only [List.map_cons, List.mem_cons]
      exact Or.inl (beq_iff_eq.mp heq)
    · exact List.mem_cons_of_mem _ (ih h)

theorem StockfishBridge.objectPrototype_no_space (key : String) (h : ' ' ∈ key.data) :
    StockfishBridge.objectPrototype.lookup key = none := by
  cases hl : StockfishBridge.objectPrototype.lookup key with
  | none => rfl
  | some len =>
    have hk := List.lookup_some_mem_keys key len _ hl
    simp only [StockfishBridge.objectPrototype, List.map_cons, List.map_nil, List.mem_cons,
      List.mem_singleton, List.not_mem_nil, or_false] at hk
    rcases hk with rfl | rfl | rfl | rfl | rfl | rfl | rfl | rfl | rfl | rfl | rfl | rfl <;>
      exact absurd h (by decide)

theorem SecondField.has_space {s field : List Char} (h : SecondField s field) : ' ' ∈ s := by
  obtain ⟨first, tail, hs, -⟩ := h
  rw [hs]
  simp

theorem List.lookup_some_mem {α β : Type} [BEq α] [LawfulBEq α] (k : α) (v : β)
    (l : List (α × β)) (h : l.lookup k = some v) : (k, v) ∈ l := by
  induction l with
  | nil => simp [List.lookup] at h
  | cons p t ih =>
    obtain ⟨a, b⟩ := p
    simp only [List.lookup] at h
    split at h
    · rename_i heq
      simp only [Option.some.injEq] at h
      rw [beq_iff_eq.mp heq, h]
      exact List.mem_cons_self _ _
    · exact List.mem_cons_of_mem _ (ih h)

theorem StockfishBridge.openingMoves_entry_pos (key : String) (moves : List String)
    (h : StockfishBridge.openingMoves.lookup key = some moves) : 0 < moves.length := by
  have hmem := List.lookup_some_mem key moves _ h
  simp only [StockfishBridge.openingMoves, List.mem_cons, Prod.mk.injEq, List.mem_singleton,
    List.not_mem_nil, or_false] at hmem
  rcases hmem with ⟨-, rfl⟩ | ⟨-, rfl⟩ | ⟨-, rfl⟩ | ⟨-, rfl⟩ | ⟨-, rfl⟩ | ⟨-, rfl⟩ | ⟨-, rfl⟩ <;>
    decide

theorem StockfishBridge.calculateBestMove_book (b : StockfishBridge) (r : JS.Draw)
    (moves : List String)
    (h : StockfishBridge.openingMoves.lookup b.currentPosition = some moves) :
    ∃ m ∈ moves, StockfishBridge.calculateBestMove b r = some m := by
  obtain ⟨m, hm, hmem⟩ := JS.pick_isSome moves r (StockfishBridge.openingMoves_entry_pos _ _ h)
  exact ⟨m, hmem, by simp [StockfishBridge.calculateBestMove, StockfishBridge.getProperty, h, hm]⟩

theorem StockfishBridge.calculateBestMove_fallback (b : StockfishBridge) (r : JS.Draw)
    (turn : String) (moves : List String)
    (hbook : StockfishBridge.openingMoves.lookup b.currentPosition = none)
    (hturn : SecondField b.currentPosition.data turn.data)
    (hmoves : StockfishBridge.fallbackMoves.lookup turn = some moves)
    (hlen : 0 < moves.length) :
    ∃ m ∈ moves, StockfishBridge.calculateBestMove b r = some m := by
  obtain ⟨m, hm, hmem⟩ := JS.pick_isSome moves r hlen
  have hproto := StockfishBridge.objectPrototype_no_space b.currentPosition hturn.has_space
  have hcur : StockfishBridge.currentTurn b = turn :=
    StockfishBridge.currentTurn_of_second b turn.data hturn
  refine ⟨m, hmem, ?_⟩
  simp [StockfishBridge.calculateBestMove, StockfishBridge.getProperty, hbook, hproto, hcur,
    hmoves, hlen, hm]

/-- C8: `_calculateBestMove` returns a member of the book entry of the stored position
when that position is a key of `openingMoves`; otherwise, when the second
space-separated field of the position is `w` or `b`, it returns a member of the fallback
list of that side, which has 14 moves. -/
theorem StockfishBridge.calculateBestMove_selects (b : StockfishBridge) (r : JS.Draw) :
    (∀ moves, StockfishBridge.openingMoves.lookup b.currentPosition = some moves →
        ∃ m ∈ moves, StockfishBridge.calculateBestMove b r = some m)
      ∧ (∀ turn, StockfishBridge.openingMoves.lookup b.currentPosition = none →
          SecondField b.currentPosition.data turn.data → turn = "w" ∨ turn = "b" →
          ∃ moves, StockfishBridge.fallbackMoves.lookup turn = some moves
            ∧ moves.length = 14
            ∧ ∃ m ∈ moves, StockfishBridge.calculateBestMove b r = some m) := by
  refine ⟨fun moves h => StockfishBridge.calculateBestMove_book b r moves h, ?_⟩
  intro turn hbook hturn hside
  rcases hside with rfl | rfl
  · exact ⟨_, rfl, rfl,
      StockfishBridge.calculateBestMove_fallback b r "w" _ hbook hturn rfl (by decide)⟩
  · exact ⟨_, rfl, rfl,
      StockfishBridge.calculateBestMove_fallback b r "b" _ hbook hturn rfl (by decide)⟩

theorem StockfishBridge.calculateBestMove_selects_witness :
    (∃ m ∈ ["e2e4", "d2d4", "g1f3", "c2c4"],
        StockfishBridge.calculateBestMove
          { StockfishBridge.new with
            currentPosition := "rnbqkbnr/pppppppp/8/8/8/8/PPPPPPPP/RNBQKBNR w KQkq - 0 1" }
          ⟨0, by decide⟩ = some m)
      ∧ (∃ moves, StockfishBridge.fallbackMoves.lookup "b" = some moves
          ∧ moves.length = 14
          ∧ ∃ m ∈ moves, StockfishBridge.calculateBestMove
              { StockfishBridge.new with currentPosition := TableChess.ruyLopezFen }
              ⟨0, by decide⟩ = some m) :=
  ⟨(StockfishBridge.calculateBestMove_selects
      { StockfishBridge.new with
        currentPosition := "rnbqkbnr/pppppppp/8/8/8/8/PPPPPPPP/RNBQKBNR w KQkq - 0 1" }
      ⟨0, by decide⟩).1 _ rfl,
   (StockfishBridge.calculateBestMove_selects
      { StockfishBridge.new with currentPosition := TableChess.ruyLopezFen }
      ⟨0, by decide⟩).2 "b" (by decide)
      ⟨"r1bqkbnr/pppp1ppp/2n5/1B2p3/4P3/5N2/PPPP1PPP/RNBQK2R".data, " KQkq - 3 3".data,
        by decide, by decide, by decide, Or.inr ⟨"KQkq - 3 3".data, by decide⟩⟩
      (Or.inr rfl)⟩

/-- C9: the code at a position whose side to move cannot be parsed.  With the second
field `W` and no book entry, `_calculateBestMove` returns `e7e5` for every draw, which
is not in the white fallback list; on the position string `constructor`, which has no
second field, it returns `undefined`. -/
theorem StockfishBridge.calculateBestMove_unparsed_side (r : JS.Draw) :
    StockfishBridge.openingMoves.lookup
        "rnbqkbnr/pppp1ppp/8/4p3/4P3/8/PPPP1PPP/RNBQKBNR W KQkq e6 0 2" = none
      ∧ StockfishBridge.currentTurn
          { StockfishBridge.new with
            currentPosition := "rnbqkbnr/pppp1ppp/8/4p3/4P3/8/PPPP1PPP/RNBQKBNR W KQkq e6 0 2" }
          = "W"
      ∧ StockfishBridge.calculateBestMove
          { StockfishBridge.new with
            currentPosition := "rnbqkbnr/pppp1ppp/8/4p3/4P3/8/PPPP1PPP/RNBQKBNR W KQkq e6 0 2" }
          r = some "e7e5"
      ∧ (∀ moves, StockfishBridge.fallbackMoves.lookup "w" = some moves → "e7e5" ∉ moves)
      ∧ StockfishBridge.calculateBestMove
          { StockfishBridge.new with currentPosition := "constructor" } r = none := by
  refine ⟨by decide, by decide, rfl, ?_, rfl⟩
  intro moves h
  have hmoves : StockfishBridge.fallbackMoves.lookup "w"
      = some ["e2e4", "d2d4", "g1f3", "b1c3", "c2c4", "f2f4", "e2e3", "d2d3",
              "a2a3", "h2h3", "a2a4", "h2h4", "b2b3", "g2g3"] := rfl
  rw [hmoves, Option.some.injEq] at h
  subst h
  decide

/-- C10, as stated, fails: in the position after 1. e4 e5, White to move and without a
book entry, a search at depth 15 can emit `a2a3`, which is not one of the eight moves. -/
theorem StockfishBridge.white_fallback_not_eight :
    (StockfishBridge.run (StockfishBridge.new.onMessage (some 1))
        [.postMessage
            "position fen rnbqkbnr/pppp1ppp/8/4p3/4P3/8/PPPP1PPP/RNBQKBNR w KQkq e6 0 2",
         .postMessage "go depth 15",
         .fire 0 ⟨5629499534213120, by decide⟩]).2 = [(1, "bestmove a2a3")]
      ∧ "a2a3" ∉ ["e2e4", "d2d4", "g1f3", "b1c3", "c2c4", "f2f4", "e2e3", "d2d3"] := by
  decide

/-- C10, amended: for every position string with White to move (second field `w`) that
has no book entry, the move the bridge emits for a search at depth 15 is one of the 14
moves of the white fallback list; from the starting position, which has a book entry,
it is one of the four book moves `e2e4`, `d2d4`, `g1f3`, `c2c4`. -/
theorem StockfishBridge.white_search_emits (b : StockfishBridge) (cb : Callback)
    (r : JS.Draw) (hcb : b.callbacks.message = some cb) (ht : b.timers = []) :
    (StockfishBridge.openingMoves.lookup b.currentPosition = none →
        SecondField b.currentPosition.data "w".data →
        ∃ m ∈ ["e2e4", "d2d4", "g1f3", "b1c3", "c2c4", "f2f4", "e2e3", "d2d3",
               "a2a3", "h2h3", "a2a4", "h2h4", "b2b3", "g2g3"],
          (StockfishBridge.run b [.postMessage "go depth 15", .fire 0 r]).2
            = [(cb, "bestmove " ++ m)])
      ∧ (b.currentPosition = "rnbqkbnr/pppppppp/8/8/8/8/PPPPPPPP/RNBQKBNR w KQkq - 0 1" →
        ∃ m ∈ ["e2e4", "d2d4", "g1f3", "c2c4"],
          (StockfishBridge.run b [.postMessage "go depth 15", .fire 0 r]).2
            = [(cb, "bestmove " ++ m)]) := by
  have hrun : ∀ m, StockfishBridge.calculateBestMove b r = some m →
      (StockfishBridge.run b [.postMessage "go depth 15", .fire 0 r]).2
        = [(cb, "bestmove " ++ m)] := by
    intro m hm
    have hcalc : StockfishBridge.calculateBestMove
        { callbacks := b.callbacks, isReady := b.isReady,
          currentPosition := b.currentPosition, timers := [] } r = some m := by
      rw [← hm]
      rfl
    simp [StockfishBridge.run, StockfishBridge.step, StockfishBridge.fire,
      StockfishBridge.postMessage_go b "go depth 15" (by decide), StockfishBridge.handleGo, ht,
      StockfishBridge.timerMessages, StockfishBridge.sendMessage, hcb, hcalc,
      StockfishBridge.render]
  constructor
  · intro hbook hturn
    obtain ⟨m, hmem, hm⟩ :=
      StockfishBridge.calculateBestMove_fallback b r "w" _ hbook hturn rfl (by decide)
    exact ⟨m, hmem, hrun m hm⟩
  · intro hpos
    obtain ⟨m, hmem, hm⟩ := StockfishBridge.calculateBestMove_book b r
      ["e2e4", "d2d4", "g1f3", "c2c4"] (by rw [hpos]; rfl)
    exact ⟨m, hmem, hrun m hm⟩

theorem StockfishBridge.white_search_emits_witness :
    ∃ m ∈ ["e2e4", "d2d4", "g1f3", "b1c3", "c2c4", "f2f4", "e2e3", "d2d3",
           "a2a3", "h2h3", "a2a4", "h2h4", "b2b3", "g2g3"],
      (StockfishBridge.run
          { callbacks := { message := some 1 }, isReady := true,
            currentPosition := "rnbqkbnr/pppp1ppp/8/4p3/4P3/8/PPPP1PPP/RNBQKBNR w KQkq e6 0 2",
            timers := [] }
          [.postMessage "go depth 15", .fire 0 ⟨5629499534213120, by decide⟩]).2
        = [(1, "bestmove " ++ m)] :=
  (StockfishBridge.white_search_emits
    { callbacks := { message := some 1 }, isReady := true,
      currentPosition := "rnbqkbnr/pppp1ppp/8/4p3/4P3/8/PPPP1PPP/RNBQKBNR w KQkq e6 0 2",
      timers := [] }
    1 ⟨5629499534213120, by decide⟩ rfl rfl).1 (by decide)
    ⟨"rnbqkbnr/pppp1ppp/8/4p3/4P3/8/PPPP1PPP/RNBQKBNR".data, " KQkq e6 0 2".data,
      by decide, by decide, by decide, Or.inr ⟨"KQkq e6 0 2".data, by decide⟩⟩

/-! ## The handshake of the coordinator -/

/-- C12: from a freshly constructed coordinator with a ready callback registered through
`onReady`, `init()` followed by the expiry of the timers delivers exactly `id name ...`,
`id author ...`, `uciok`, `readyok` in that order; the coordinator answers `uciok` by
posting `isready`; its `isReady` is false until `readyok` is delivered and true
afterwards; the ready callback is invoked exactly once, and no timer is left. -/
theorem ChessAI.handshake_trace {β : Type} (lib : ChessJs β) (cb : Callback)
    (r1 r2 r3 r4 : JS.Draw) :
    (ChessAI.run lib (ChessAI.new lib)
        [.onReady (some cb), .init, .fire 0 r1 r2, .fire 0 r3 r4]).2
        = [.posted "uci", .message "id name Stockfish 17 Local",
           .message "id author The Stockfish Team", .message "uciok", .posted "isready",
           .message "readyok", .ready cb]
      ∧ (ChessAI.run lib (ChessAI.new lib) [.onReady (some cb), .init]).1.isReady = false
      ∧ (ChessAI.run lib (ChessAI.new lib) [.onReady (some cb), .init]).1.stockfish.timers
          = [{ kind := .uci, delay := 100 }]
      ∧ (ChessAI.run lib (ChessAI.new lib)
          [.onReady (some cb), .init, .fire 0 r1 r2]).1.isReady = false
      ∧ (ChessAI.run lib (ChessAI.new lib)
          [.onReady (some cb), .init, .fire 0 r1 r2]).1.stockfish.timers
          = [{ kind := .isready, delay := 100 }]
      ∧ (ChessAI.run lib (ChessAI.new lib)
          [.onReady (some cb), .init, .fire 0 r1 r2, .fire 0 r3 r4]).1.isReady = true
      ∧ (ChessAI.run lib (ChessAI.new lib)
          [.onReady (some cb), .init, .fire 0 r1 r2, .fire 0 r3 r4]).1.stockfish.timers
          = [] := by
  refine ⟨rfl, rfl, rfl, rfl, rfl, rfl, rfl⟩

/-! ## Termination of the coordinator -/

theorem ChessAI.sendAll_silent {β : Type} (lib : ChessJs β) (s : ChessAI β) (r : JS.Draw)
    (msgs : List String) (h : s.stockfish.callbacks.message = none) :
    ChessAI.sendAll lib s r msgs = (s, []) := by
  induction msgs with
  | nil => rfl
  | cons m ms ih =>
    have h1 : ChessAI.sendMessage lib s m r = (s, []) := by
      simp [ChessAI.sendMessage, h]
    simp [ChessAI.sendAll, h1, ih]

theorem ChessAI.fire_silent {β : Type} (lib : ChessJs β) (s : ChessAI β) (i : Nat)
    (r1 r2 : JS.Draw) (h : s.stockfish.callbacks.message = none) :
    (ChessAI.fire lib s i r1 r2).1.stockfish.callbacks.message = none
      ∧ (ChessAI.fire lib s i r1 r2).2 = [] := by
  unfold ChessAI.fire
  split
  · exact ⟨h, rfl⟩
  · rename_i t ht
    have key := ChessAI.sendAll_silent lib
      { s with stockfish := { s.stockfish with timers := s.stockfish.timers.eraseIdx i } } r2
      (StockfishBridge.timerMessages
        { s.stockfish with timers := s.stockfish.timers.eraseIdx i } t.kind r1) h
    simp only [key]
    exact ⟨h, trivial⟩

theorem ChessAI.fires_silent {β : Type} (lib : ChessJs β)
    (fires : List (Nat × JS.Draw × JS.Draw)) :
    ∀ s : ChessAI β, s.stockfish.callbacks.message = none →
      (ChessAI.run lib s (fires.map fun f => Event.fire f.1 f.2.1 f.2.2)).2 = [] := by
  induction fires with
  | nil => intro s _; rfl
  | cons f fs ih =>
    intro s h
    obtain ⟨h1, h2⟩ := ChessAI.fire_silent lib s f.1 f.2.1 f.2.2 h
    have h3 := ih (ChessAI.fire lib s f.1 f.2.1 f.2.2).1 h1
    simp only [List.map_cons, ChessAI.run, ChessAI.step, h2, h3, List.append_nil]

/-- C18: after `ChessAI.terminate()` the coordinator's table of callbacks is empty and the
bridge has no consumer, so whatever timers are in flight, any sequence of their expiries
produces no output at all: neither the ready callback nor the best-move callback is
invoked, and no message is even delivered. -/
theorem ChessAI.terminate_clears_callbacks {β : Type} (lib : ChessJs β) (s : ChessAI β)
    (fires : List (Nat × JS.Draw × JS.Draw)) :
    (ChessAI.terminate s).callbacks = { ready := none, bestMove := none }
      ∧ (ChessAI.terminate s).stockfish.callbacks.message = none
      ∧ (ChessAI.terminate s).stockfish.timers = s.stockfish.timers
      ∧ (ChessAI.run lib (ChessAI.terminate s)
          (fires.map fun f => Event.fire f.1 f.2.1 f.2.2)).2 = [] :=
  ⟨rfl, rfl, rfl, ChessAI.fires_silent lib fires (ChessAI.terminate s) rfl⟩

/-! ## The move history -/

theorem ChessAI.setPosition_of_rejected {β : Type} (lib : ChessJs β) (s : ChessAI β)
    (fen : String) (h : lib.load fen = none) :
    ChessAI.setPosition lib s fen = (false, s, []) := by
  simp [ChessAI.setPosition, ChessEngine.setPosition, h]

theorem ChessAI.setPosition_of_accepted {β : Type} (lib : ChessJs β) (s : ChessAI β)
    (fen : String) (c : β) (h : lib.load fen = some c) :
    ChessAI.setPosition lib s fen
      = (true, ChessAI.post { s with engine := { s.engine with chess := c } }
          ("position fen " ++ fen)) := by
  simp [ChessAI.setPosition, ChessEngine.setPosition, h]

/-- C20: `ChessEngine.setPosition` never changes the move history, whether the load
succeeds or fails, and neither does `ChessAI.setPosition`; `reset()` empties it.  So
after a successful `setPosition` the history may describe moves that did not lead to the
current position: in the tabulated fragment, after `e2e4` from the start and a load of
the position after 1. e4 e5 2. Nf3 Nc6 3. Bb5, the history still holds `e4` alone. -/
theorem ChessEngine.setPosition_keeps_history {β : Type} (lib : ChessJs β)
    (e : ChessEngine β) (s : ChessAI β) (fen : String) :
    ChessEngine.getMoveHistory (ChessEngine.setPosition lib e fen).2
        = ChessEngine.getMoveHistory e
      ∧ ChessEngine.getMoveHistory (ChessAI.setPosition lib s fen).2.1.engine
        = ChessEngine.getMoveHistory s.engine
      ∧ ChessEngine.getMoveHistory (ChessEngine.reset lib e) = []
      ∧ (ChessEngine.setPosition TableChess.lib
            (ChessEngine.makeMove TableChess.lib (ChessEngine.new TableChess.lib)
              (.str "e2e4")).2 TableChess.ruyLopezFen).1 = true
      ∧ ChessEngine.getFen TableChess.lib
          (ChessEngine.setPosition TableChess.lib
            (ChessEngine.makeMove TableChess.lib (ChessEngine.new TableChess.lib)
              (.str "e2e4")).2 TableChess.ruyLopezFen).2 = TableChess.ruyLopezFen
      ∧ ChessEngine.getMoveHistory
          (ChessEngine.setPosition TableChess.lib
            (ChessEngine.makeMove TableChess.lib (ChessEngine.new TableChess.lib)
              (.str "e2e4")).2 TableChess.ruyLopezFen).2
          = [⟨"e2", "e4", none, "b", "e4"⟩] := by
  refine ⟨?_, ?_, rfl, by decide, by decide, by decide⟩
  · unfold ChessEngine.setPosition
    split <;> rfl
  · cases h : lib.load fen with
    | none => rw [ChessAI.setPosition_of_rejected lib s fen h]
    | some c =>
      rw [ChessAI.setPosition_of_accepted lib s fen c h]
      rfl

/-! ## The priority policy of the heuristic move -/

theorem JS.firstMatch_single (c : Char) (l : List Char) :
    (JS.firstMatch (JS.dropLiteral [c]) l).isSome = true ↔ c ∈ l := by
  induction l with
  | nil => simp [JS.firstMatch, JS.dropLiteral]
  | cons x t ih =>
    by_cases hx : c = x
    · subst hx
      simp [JS.firstMatch, JS.dropLiteral]
    · have hne : ¬ x = c := fun e => hx e.symm
      simp only [JS.firstMatch, JS.dropLiteral, hx, if_false, List.mem_cons, false_or]
      exact ih

theorem JS.includes_p (s : String) : JS.includes s "p" = true ↔ 'p' ∈ s.data :=
  JS.firstMatch_single 'p' s.data

theorem List.filter_length_pos {α : Type} (p : α → Bool) (l : List α) :
    0 < (l.filter p).length ↔ ∃ a ∈ l, p a = true := by
  rw [List.length_pos, Ne, List.filter_eq_nil_iff]
  push_neg
  rfl

theorem ChessEngine.getBestMove_of_single_check {β : Type} (lib : ChessJs β)
    (e : ChessEngine β) (r : JS.Draw) (k : Move)
    (hp : (ChessEngine.getLegalMoves lib e).filter
      (fun move => JS.includes move.flags "p") = [])
    (hc : (ChessEngine.getLegalMoves lib e).filter
      (fun move => JS.includes move.flags "c") = [])
    (hk : (ChessEngine.getLegalMoves lib e).filter
      (fun move => JS.includes move.san "+") = [k]) :
    ChessEngine.getBestMove lib e r = some k := by
  have hmem : k ∈ ChessEngine.getLegalMoves lib e :=
    List.mem_of_mem_filter (by rw [hk]; exact List.mem_cons_self _ _)
  have hlen : (ChessEngine.getLegalMoves lib e).length ≠ 0 := by
    intro h0
    rw [List.length_eq_zero.mp h0] at hmem
    simp at hmem
  have h1 : JS.randomIndex r 1 < 1 := JS.randomIndex_lt r (by decide)
  have h0 : JS.randomIndex r 1 = 0 := by omega
  unfold ChessEngine.getBestMove
  simp [hlen, hp, hc, hk, h0]

/-- C16: what `ChessEngine.getBestMove` does and where it leaves the priority policy.  It
returns `null` exactly when the list of legal moves is empty, otherwise a member of the
list, and a promotion if the list holds any.  But it counts as captures only the moves
flagged `c` and as checks only the moves marked `+`: where the only capture is en
passant it returns the check `Rh8+` for every draw, and where the only check is the mate
`Ra8#` it draws among all moves and returns `O-O-O` for the draw `(2^53-1)/2^53`. -/
theorem ChessEngine.getBestMove_overlooks {β : Type} (lib : ChessJs β) (e : ChessEngine β)
    (r : JS.Draw) :
    ((ChessEngine.getBestMove lib e r = none ↔ ChessEngine.getLegalMoves lib e = [])
        ∧ ∀ m, ChessEngine.getBestMove lib e r = some m →
          m ∈ ChessEngine.getLegalMoves lib e
            ∧ ((∃ p ∈ ChessEngine.getLegalMoves lib e, p.isPromotion) → m.isPromotion))
      ∧ ((ChessEngine.setPosition TableChess.lib (ChessEngine.new TableChess.lib)
            TableChess.enPassantFen).1 = true
        ∧ (⟨"e5", "d6", none, "e", "exd6"⟩ : Move) ∈ ChessEngine.getLegalMoves TableChess.lib
            (ChessEngine.setPosition TableChess.lib (ChessEngine.new TableChess.lib)
              TableChess.enPassantFen).2
        ∧ (⟨"e5", "d6", none, "e", "exd6"⟩ : Move).isCapture
        ∧ (∀ p ∈ ChessEngine.getLegalMoves TableChess.lib
              (ChessEngine.setPosition TableChess.lib (ChessEngine.new TableChess.lib)
                TableChess.enPassantFen).2, ¬ p.isPromotion)
        ∧ ChessEngine.getBestMove TableChess.lib
            (ChessEngine.setPosition TableChess.lib (ChessEngine.new TableChess.lib)
              TableChess.enPassantFen).2 r = some ⟨"h1", "h8", none, "n", "Rh8+"⟩
        ∧ ¬ (⟨"h1", "h8", none, "n", "Rh8+"⟩ : Move).isCapture)
      ∧ ((ChessEngine.setPosition TableChess.lib (ChessEngine.new TableChess.lib)
            TableChess.backRankFen).1 = true
        ∧ (⟨"a1", "a8", none, "n", "Ra8#"⟩ : Move) ∈ ChessEngine.getLegalMoves TableChess.lib
            (ChessEngine.setPosition TableChess.lib (ChessEngine.new TableChess.lib)
              TableChess.backRankFen).2
        ∧ (⟨"a1", "a8", none, "n", "Ra8#"⟩ : Move).isCheck
        ∧ (∀ p ∈ ChessEngine.getLegalMoves TableChess.lib
              (ChessEngine.setPosition TableChess.lib (ChessEngine.new TableChess.lib)
                TableChess.backRankFen).2, ¬ p.isPromotion ∧ ¬ p.isCapture)
        ∧ ChessEngine.getBestMove TableChess.lib
            (ChessEngine.setPosition TableChess.lib (ChessEngine.new TableChess.lib)
              TableChess.backRankFen).2 ⟨9007199254740991, by decide⟩
            = some ⟨"e1", "c1", none, "q", "O-O-O"⟩
        ∧ ¬ (⟨"e1", "c1", none, "q", "O-O-O"⟩ : Move).isCheck) := by
  refine ⟨⟨⟨?_, ?_⟩, ?_⟩,
    ⟨by decide, by decide, by decide, by decide, ?_, by decide⟩,
    ⟨by decide, by decide, by decide, by decide, by decide, by decide⟩⟩
  · intro hnone
    by_contra hne
    obtain ⟨m, hm, -⟩ := ChessEngine.getBestMove_isSome lib e r hne
    rw [hnone] at hm
    exact absurd hm (by simp)
  · intro hnil
    simp [ChessEngine.getBestMove, hnil]
  · intro m hm
    refine ⟨ChessEngine.getBestMove_mem lib e r m hm, ?_⟩
    intro hex
    obtain ⟨p, hpm, hpp⟩ := hex
    unfold ChessEngine.getBestMove at hm
    simp only at hm
    split_ifs at hm with h0 hp hc hk
    · have := List.mem_filter.mp (JS.pick_mem _ r m hm)
      exact (JS.includes_p _).mp this.2
    · exact absurd ((List.filter_length_pos _ _).mpr ⟨p, hpm, (JS.includes_p _).mpr hpp⟩) hp
    · exact absurd ((List.filter_length_pos _ _).mpr ⟨p, hpm, (JS.includes_p _).mpr hpp⟩) hp
    · exact absurd ((List.filter_length_pos _ _).mpr ⟨p, hpm, (JS.includes_p _).mpr hpp⟩) hp
  · exact ChessEngine.getBestMove_of_single_check TableChess.lib _ r _
      (by decide) (by decide) (by decide)

/-! ## Illegal moves on the rules state -/

/-- C15: for every rules state and every move `m` that the library rejects on the current
position, `isMoveLegal(m)` returns false and `makeMove(m)` returns `null`, leaving the
position and the move history as they were.  `isMoveLegal` works on a `Chess` object
rebuilt from the current FEN and so cannot change the state for any `m`; the library is
assumed to judge `m` on the rebuilt object as it does on the original. -/
theorem ChessEngine.illegal_move_rejected {β : Type} (lib : ChessJs β) (e : ChessEngine β)
    (m : MoveArg) (hillegal : lib.move e.chess m = none)
    (hcopy : ∀ t, lib.load (lib.fen e.chess) = some t →
      (lib.move t m).isSome = (lib.move e.chess m).isSome) :
    ChessEngine.isMoveLegal lib e m = false
      ∧ (ChessEngine.makeMove lib e m).1 = none
      ∧ (ChessEngine.makeMove lib e m).2 = e
      ∧ ChessEngine.getFen lib (ChessEngine.makeMove lib e m).2 = ChessEngine.getFen lib e
      ∧ ChessEngine.getMoveHistory (ChessEngine.makeMove lib e m).2
          = ChessEngine.getMoveHistory e := by
  have hmake : ChessEngine.makeMove lib e m = (none, e) := by
    simp [ChessEngine.makeMove, hillegal]
  refine ⟨?_, by rw [hmake], by rw [hmake], by rw [hmake], by rw [hmake]⟩
  unfold ChessEngine.isMoveLegal
  cases hload : lib.load (lib.fen e.chess) with
  | none => rfl
  | some t =>
    simp only
    rw [hcopy t hload, hillegal]
    rfl

theorem ChessEngine.illegal_move_rejected_witness :
    ChessEngine.isMoveLegal TableChess.lib TableChess.searching.engine (.str "z9z9") = false
      ∧ (ChessEngine.makeMove TableChess.lib TableChess.searching.engine (.str "z9z9")).1
          = none :=
  have h := ChessEngine.illegal_move_rejected TableChess.lib TableChess.searching.engine
    (.str "z9z9") (by decide)
    (fun t ht => by
      have hl : TableChess.lib.load (TableChess.lib.fen TableChess.searching.engine.chess)
          = some TableChess.ruyLopezFen := by decide
      rw [hl] at ht
      cases ht
      decide)
  ⟨h.1, h.2.1⟩

/-! ## Resynchronisation of the bridge -/

theorem StockfishBridge.matchPosition_append (x : String) :
    StockfishBridge.matchPosition ("position fen " ++ x)
      = some (String.mk (x.data.takeWhile fun c => !JS.isLineTerminator c)) := by
  unfold StockfishBridge.matchPosition
  have hd : ("position fen " ++ x).data = ("position fen " : String).data ++ x.data :=
    String.data_append _ _
  rw [hd, JS.firstMatch_of_head _ _ x.data (JS.dropLiteral_append _ _)]
  rfl

theorem StockfishBridge.handlePosition_singleLine (b : StockfishBridge) (x : String)
    (h : SingleLine x) :
    b.handlePosition ("position fen " ++ x) = { b with currentPosition := x } := by
  have htake : (x.data.takeWhile fun c => !JS.isLineTerminator c) = x.data :=
    List.takeWhile_eq_self_iff.mpr fun c hc => by simp [h.2 c hc]
  unfold StockfishBridge.handlePosition
  rw [StockfishBridge.matchPosition_append, htake]
  have hne : (String.mk x.data).data.isEmpty = false := by
    cases hx : x.data with
    | nil => exact absurd hx h.1
    | cons c t => rfl
  simp only [hne]
  rfl

theorem ChessAI.post_position_singleLine {β : Type} (s : ChessAI β) (x : String)
    (h : SingleLine x) :
    (ChessAI.post s ("position fen " ++ x)).1.stockfish.currentPosition = x := by
  simp [ChessAI.post, StockfishBridge.postMessage_position,
    StockfishBridge.handlePosition_singleLine _ _ h]

/-- C14: after every `ChessAI.makeMove` that returns a record, and after every
`ChessAI.reset()`, the bridge's `currentPosition` equals `engine.getFen()`, the resulting
position; when `makeMove` returns `null` the bridge is left as it was.  The FEN that the
library writes is assumed to be a non-empty single line. -/
theorem ChessAI.position_resynchronised {β : Type} (lib : ChessJs β) (s : ChessAI β)
    (move : MoveArg) :
    (∀ result, (ChessAI.makeMove lib s move).1 = some result →
        SingleLine (ChessEngine.getFen lib (ChessAI.makeMove lib s move).2.1.engine) →
        (ChessAI.makeMove lib s move).2.1.stockfish.currentPosition
            = ChessEngine.getFen lib (ChessAI.makeMove lib s move).2.1.engine
          ∧ (ChessAI.makeMove lib s move).2.2
            = [.posted ("position fen "
                ++ ChessEngine.getFen lib (ChessAI.makeMove lib s move).2.1.engine)])
      ∧ ((ChessAI.makeMove lib s move).1 = none →
          (ChessAI.makeMove lib s move).2.1.stockfish = s.stockfish
            ∧ (ChessAI.makeMove lib s move).2.2 = [])
      ∧ (SingleLine (lib.fen lib.initial) →
          (ChessAI.reset lib s).1.stockfish.currentPosition
            = ChessEngine.getFen lib (ChessAI.reset lib s).1.engine) := by
  refine ⟨?_, ?_, ?_⟩
  · intro result hres hline
    cases hm : lib.move s.engine.chess move with
    | none => simp [ChessAI.makeMove, ChessEngine.makeMove, hm] at hres
    | some p =>
      obtain ⟨rec, c⟩ := p
      have hmk : ChessAI.makeMove lib s move
          = (some rec, ChessAI.post
              { s with engine := { chess := c, moveHistory := s.engine.moveHistory ++ [rec] } }
              ("position fen " ++ lib.fen c)) := by
        simp [ChessAI.makeMove, ChessEngine.makeMove, hm, ChessEngine.getFen]
      rw [hmk] at hline ⊢
      have hfen : SingleLine (lib.fen c) := hline
      exact ⟨ChessAI.post_position_singleLine _ _ hfen, rfl⟩
  · intro hnone
    cases hm : lib.move s.engine.chess move with
    | none => simp [ChessAI.makeMove, ChessEngine.makeMove, hm]
    | some p =>
      obtain ⟨rec, c⟩ := p
      simp [ChessAI.makeMove, ChessEngine.makeMove, hm] at hnone
  · intro hline
    exact ChessAI.post_position_singleLine _ _ hline

theorem ChessAI.position_resynchronised_witness :
    (ChessAI.makeMove TableChess.lib TableChess.searching
        (.str "a7a6")).2.1.stockfish.currentPosition
      = "r1bqkbnr/1ppp1ppp/p1n5/1B2p3/4P3/5N2/PPPP1PPP/RNBQK2R w KQkq - 0 4" :=
  ((ChessAI.position_resynchronised TableChess.lib TableChess.searching (.str "a7a6")).1
    ⟨"a7", "a6", none, "n", "a6"⟩ (by decide) ⟨by decide, by decide⟩).1

/-! ## Forwarding a position to the bridge -/

/-- C13: the code at a position string with a line break.  `ChessAI.setPosition` returns
what the rules state answers; on rejection it leaves the coordinator and its bridge as
they were and posts nothing; on acceptance it posts `position fen <fen>` to the bridge,
which stores exactly `fen` when that is a non-empty single line.  For the starting
position written with a line feed between its first two fields, the bridge stores only
the first field, which is not the string it was sent. -/
theorem ChessAI.setPosition_line_break {β : Type} (lib : ChessJs β) (s : ChessAI β)
    (b : StockfishBridge) :
    (∀ fen, lib.load fen = none → ChessAI.setPosition lib s fen = (false, s, []))
      ∧ (∀ fen c, lib.load fen = some c →
          (ChessAI.setPosition lib s fen).1 = true
            ∧ (ChessAI.setPosition lib s fen).2.2 = [.posted ("position fen " ++ fen)]
            ∧ (ChessAI.setPosition lib s fen).2.1.stockfish
                = s.stockfish.postMessage ("position fen " ++ fen))
      ∧ (∀ fen c, lib.load fen = some c → SingleLine fen →
          (ChessAI.setPosition lib s fen).2.1.stockfish.currentPosition = fen)
      ∧ (b.postMessage
            ("position fen " ++ "rnbqkbnr/pppppppp/8/8/8/8/PPPPPPPP/RNBQKBNR\nw KQkq - 0 1")
          ).currentPosition = "rnbqkbnr/pppppppp/8/8/8/8/PPPPPPPP/RNBQKBNR"
      ∧ "rnbqkbnr/pppppppp/8/8/8/8/PPPPPPPP/RNBQKBNR"
          ≠ "rnbqkbnr/pppppppp/8/8/8/8/PPPPPPPP/RNBQKBNR\nw KQkq - 0 1" := by
  refine ⟨fun fen h => ChessAI.setPosition_of_rejected lib s fen h, ?_, ?_, ?_, by decide⟩
  · intro fen c h
    rw [ChessAI.setPosition_of_accepted lib s fen c h]
    exact ⟨rfl, rfl, rfl⟩
  · intro fen c h hline
    rw [ChessAI.setPosition_of_accepted lib s fen c h]
    exact ChessAI.post_position_singleLine _ _ hline
  · rw [StockfishBridge.postMessage_position]
    unfold StockfishBridge.handlePosition
    rw [StockfishBridge.matchPosition_append]
    rfl

/-! ## The outcomes of a best-move message -/

/-- C17, as stated, fails: with a callback stored, a `bestmove` message without a move
token invokes nothing, and so does an illegal proposal in a position where the rules state
has no legal move. -/
theorem ChessAI.bestmove_can_be_silent :
    TableChess.searching.callbacks.bestMove = some 7
      ∧ (ChessAI.handleStockfishMessage TableChess.lib TableChess.searching "bestmove"
          ⟨0, by decide⟩).2 = []
      ∧ TableChess.mated.callbacks.bestMove = some 7
      ∧ ChessEngine.getLegalMoves TableChess.lib TableChess.mated.engine = []
      ∧ ChessEngine.isMoveLegal TableChess.lib TableChess.mated.engine (.str "e2e4") = false
      ∧ (ChessAI.handleStockfishMessage TableChess.lib TableChess.mated "bestmove e2e4"
          ⟨0, by decide⟩).2 = [] := by
  decide

/-- C17, amended: with a best-move callback stored, handling a message that begins with
`bestmove` always clears `isThinking`; the callback is invoked exactly once, with the
proposed move if it is legal and otherwise with the heuristic move, whenever the message
carries a move token and the proposal is legal or the rules state has a legal move; when
the proposal is illegal and the rules state has no move, or when the message carries no
move token, the callback is not invoked. -/
theorem ChessAI.handleStockfishMessage_outcomes {β : Type} (lib : ChessJs β)
    (s : ChessAI β) (message : String) (r : JS.Draw) (cb : Callback)
    (hstart : JS.startsWith message "bestmove" = true)
    (hcb : s.callbacks.bestMove = some cb) :
    (ChessAI.handleStockfishMessage lib s message r).1.isThinking = false
      ∧ (∀ token, ChessAI.matchBestmove message = some token →
          ChessEngine.isMoveLegal lib s.engine (.str token) = true →
          (ChessAI.handleStockfishMessage lib s message r).2 = [.bestMove cb (.str token)])
      ∧ (∀ token, ChessAI.matchBestmove message = some token →
          ChessEngine.isMoveLegal lib s.engine (.str token) = false →
          ChessEngine.getLegalMoves lib s.engine ≠ [] →
          ∃ m ∈ ChessEngine.getLegalMoves lib s.engine,
            (ChessAI.handleStockfishMessage lib s message r).2 = [.bestMove cb (.obj m)])
      ∧ (∀ token, ChessAI.matchBestmove message = some token →
          ChessEngine.isMoveLegal lib s.engine (.str token) = false →
          ChessEngine.getLegalMoves lib s.engine = [] →
          (ChessAI.handleStockfishMessage lib s message r).2 = [])
      ∧ (ChessAI.matchBestmove message = none →
          (ChessAI.handleStockfishMessage lib s message r).2 = []) := by
  have h1 : message ≠ "uciok" := by
    rintro rfl
    exact absurd hstart (by decide)
  have h2 : message ≠ "readyok" := by
    rintro rfl
    exact absurd hstart (by decide)
  refine ⟨?_, ?_, ?_, ?_, ?_⟩
  · unfold ChessAI.handleStockfishMessage
    simp only [h1, h2, hstart, if_false, if_true]
    split
    · split_ifs
      · rfl
      · split <;> rfl
    · rfl
  · intro token htoken hlegal
    unfold ChessAI.handleStockfishMessage ChessAI.callBestMove
    simp [h1, h2, hstart, htoken, hlegal, hcb]
  · intro token htoken hillegal hmoves
    obtain ⟨m, hbest, hmem⟩ := ChessEngine.getBestMove_isSome lib s.engine r hmoves
    refine ⟨m, hmem, ?_⟩
    unfold ChessAI.handleStockfishMessage ChessAI.callBestMove
    simp [h1, h2, hstart, htoken, hillegal, hbest, hcb]
  · intro token htoken hillegal hmoves
    have hbest : ChessEngine.getBestMove lib s.engine r = none := by
      simp [ChessEngine.getBestMove, hmoves]
    unfold ChessAI.handleStockfishMessage
    simp [h1, h2, hstart, htoken, hillegal, hbest]
  · intro hnone
    unfold ChessAI.handleStockfishMessage
    simp [h1, h2, hstart, hnone]

theorem ChessAI.handleStockfishMessage_outcomes_witness :
    (ChessAI.handleStockfishMessage TableChess.lib TableChess.searching "bestmove a7a6"
        ⟨0, by decide⟩).2 = [.bestMove 7 (.str "a7a6")] :=
  (ChessAI.handleStockfishMessage_outcomes TableChess.lib TableChess.searching
    "bestmove a7a6" ⟨0, by decide⟩ 7 (by decide) rfl).2.1 "a7a6" (by decide) (by decide)

/-! ## The ready flag of the bridge -/

theorem JS.startsWith_go_depth (x : String) :
    JS.startsWith ("go depth " ++ x) "go" = true := by
  unfold JS.startsWith
  have hd : ("go depth " ++ x).data = ("go depth " : String).data ++ x.data :=
    String.data_append _ _
  rw [hd]
  have h1 : ("go depth " : String).data = ['g', 'o', ' ', 'd', 'e', 'p', 't', 'h', ' '] := rfl
  have h2 : ("go" : String).data = ['g', 'o'] := rfl
  rw [h1, h2]
  simp [JS.dropLiteral]

theorem StockfishBridge.handlePosition_isReady (b : StockfishBridge) (message : String) :
    (b.handlePosition message).isReady = b.isReady := by
  unfold StockfishBridge.handlePosition
  split
  · split_ifs <;> rfl
  · rfl

theorem StockfishBridge.postMessage_isReady (b : StockfishBridge) (message : String)
    (h : (b.postMessage message).isReady = true) :
    b.isReady = true ∨ message = "isready" := by
  unfold StockfishBridge.postMessage at h
  split_ifs at h with h1 h2 h3 h4
  · exact Or.inl h
  · exact Or.inr h2
  · rw [StockfishBridge.handlePosition_isReady] at h
    exact Or.inl h
  · exact Or.inl h
  · exact Or.inl h

theorem StockfishBridge.step_isReady (b : StockfishBridge) (e : BridgeEvent)
    (h : (StockfishBridge.step b e).1.isReady = true) :
    b.isReady = true ∨ e = .postMessage "isready" := by
  cases e with
  | onMessage callback => exact Or.inl h
  | postMessage message =>
    rcases StockfishBridge.postMessage_isReady b message h with h1 | h1
    · exact Or.inl h1
    · exact Or.inr (by rw [h1])
  | terminate => simp [StockfishBridge.step, StockfishBridge.terminate] at h
  | fire i r =>
    simp only [StockfishBridge.step, StockfishBridge.fire] at h
    split at h
    · exact Or.inl h
    · exact Or.inl h

theorem StockfishBridge.run_isReady (evs : List BridgeEvent) :
    ∀ b : StockfishBridge, (StockfishBridge.run b evs).1.isReady = true →
      b.isReady = true ∨ BridgeEvent.postMessage "isready" ∈ evs := by
  induction evs with
  | nil => intro b h; exact Or.inl h
  | cons e es ih =>
    intro b h
    rcases ih (StockfishBridge.step b e).1 h with h1 | h1
    · rcases StockfishBridge.step_isReady b e h1 with h2 | h2
      · exact Or.inl h2
      · exact Or.inr (by rw [h2]; exact List.mem_cons_self _ _)
    · exact Or.inr (List.mem_cons_of_mem _ h1)

theorem UciAnswered.mono_left {out : List Output} (h : UciAnswered out)
    (extra : List Output) : UciAnswered (out ++ extra) :=
  ⟨List.mem_append_left _ h.1, List.mem_append_left _ h.2⟩

theorem UciAnswered.mono_right {out : List Output} (h : UciAnswered out)
    (before : List Output) : UciAnswered (before ++ out) :=
  ⟨List.mem_append_right _ h.1, List.mem_append_right _ h.2⟩

theorem ChessAI.post_isReady {β : Type} (s : ChessAI β) (command : String)
    (h : (ChessAI.post s command).1.stockfish.isReady = true) :
    s.stockfish.isReady = true ∨ command = "isready" :=
  StockfishBridge.postMessage_isReady s.stockfish command h

theorem ChessAI.post_position_isReady {β : Type} (s : ChessAI β) (x : String) :
    (ChessAI.post s ("position fen " ++ x)).1.stockfish.isReady = s.stockfish.isReady := by
  simp [ChessAI.post, StockfishBridge.postMessage_position,
    StockfishBridge.handlePosition_isReady]

theorem ChessAI.handleStockfishMessage_stockfish {β : Type} (lib : ChessJs β)
    (s : ChessAI β) (message : String) (r : JS.Draw) :
    (ChessAI.handleStockfishMessage lib s message r).1.stockfish = s.stockfish
      ∨ (message = "uciok"
        ∧ (ChessAI.handleStockfishMessage lib s message r).1.stockfish
            = s.stockfish.postMessage "isready"
        ∧ Output.posted "isready" ∈ (ChessAI.handleStockfishMessage lib s message r).2) := by
  unfold ChessAI.handleStockfishMessage ChessAI.post
  simp only
  split_ifs with h1 h2 h3
  · exact Or.inr ⟨h1, rfl, by simp⟩
  · left
    split <;> rfl
  · left
    split
    · split_ifs
      · rfl
      · split <;> rfl
    · rfl
  · exact Or.inl rfl

theorem ChessAI.sendMessage_bridge_isReady {β : Type} (lib : ChessJs β) (s : ChessAI β)
    (message : String) (r : JS.Draw)
    (h : (ChessAI.sendMessage lib s message r).1.stockfish.isReady = true) :
    s.stockfish.isReady = true ∨ UciAnswered (ChessAI.sendMessage lib s message r).2 := by
  unfold ChessAI.sendMessage at h ⊢
  split at h
  · rename_i cb hcb
    simp only [hcb] at h ⊢
    rcases ChessAI.handleStockfishMessage_stockfish lib s message r with he | ⟨hm, -, hp⟩
    · rw [he] at h
      exact Or.inl h
    · subst hm
      exact Or.inr ⟨List.mem_cons_self _ _, List.mem_cons_of_mem _ hp⟩
  · exact Or.inl h

theorem ChessAI.sendAll_bridge_isReady {β : Type} (lib : ChessJs β) (r : JS.Draw)
    (msgs : List String) :
    ∀ s : ChessAI β, (ChessAI.sendAll lib s r msgs).1.stockfish.isReady = true →
      s.stockfish.isReady = true ∨ UciAnswered (ChessAI.sendAll lib s r msgs).2 := by
  induction msgs with
  | nil => intro s h; exact Or.inl h
  | cons m ms ih =>
    intro s h
    rcases ih (ChessAI.sendMessage lib s m r).1 h with h1 | h1
    · rcases ChessAI.sendMessage_bridge_isReady lib s m r h1 with h2 | h2
      · exact Or.inl h2
      · exact Or.inr (h2.mono_left _)
    · exact Or.inr (h1.mono_right _)

theorem ChessAI.step_bridge_isReady {β : Type} (lib : ChessJs β) (s : ChessAI β) (e : Event)
    (h : (ChessAI.step lib s e).1.stockfish.isReady = true) :
    s.stockfish.isReady = true ∨ UciAnswered (ChessAI.step lib s e).2 := by
  cases e with
  | init =>
    rcases ChessAI.post_isReady s "uci" h with h1 | h1
    · exact Or.inl h1
    · exact absurd h1 (by decide)
  | setSearchDepth depth => exact Or.inl h
  | setPosition fen =>
    left
    simp only [ChessAI.step] at h
    cases hl : lib.load fen with
    | none =>
      rw [ChessAI.setPosition_of_rejected lib s fen hl] at h
      exact h
    | some c =>
      rw [ChessAI.setPosition_of_accepted lib s fen c hl] at h
      simp only at h
      rw [ChessAI.post_position_isReady] at h
      exact h
  | makeMove move =>
    left
    simp only [ChessAI.step, ChessAI.makeMove] at h
    split at h
    · simp only at h
      rw [ChessAI.post_position_isReady] at h
      exact h
    · exact h
  | getBestMove callback =>
    left
    simp only [ChessAI.step, ChessAI.getBestMove] at h
    split_ifs at h
    · exact h
    · simp only [ChessAI.post,
        StockfishBridge.postMessage_go _ _ (JS.startsWith_go_depth _)] at h
      exact h
  | reset =>
    left
    simp only [ChessAI.step, ChessAI.reset] at h
    rw [ChessAI.post_position_isReady] at h
    exact h
  | onReady callback =>
    left
    simp only [ChessAI.step, ChessAI.onReady] at h
    split_ifs at h
    · split at h <;> exact h
    · exact h
  | terminate => simp [ChessAI.step, ChessAI.terminate, StockfishBridge.terminate] at h
  | fire i r1 r2 =>
    cases ht : s.stockfish.timers[i]? with
    | none =>
      simp only [ChessAI.step, ChessAI.fire, ht] at h
      exact Or.inl h
    | some t =>
      simp only [ChessAI.step, ChessAI.fire, ht] at h ⊢
      exact ChessAI.sendAll_bridge_isReady lib r2 _ _ h

theorem ChessAI.run_bridge_isReady {β : Type} (lib : ChessJs β) (evs : List Event) :
    ∀ s : ChessAI β, (ChessAI.run lib s evs).1.stockfish.isReady = true →
      s.stockfish.isReady = true ∨ UciAnswered (ChessAI.run lib s evs).2 := by
  induction evs with
  | nil => intro s h; exact Or.inl h
  | cons e es ih =>
    intro s h
    rcases ih (ChessAI.step lib s e).1 h with h1 | h1
    · rcases ChessAI.step_bridge_isReady lib s e h1 with h2 | h2
      · exact Or.inl h2
      · exact Or.inr (h2.mono_left _)
    · exact Or.inr (h1.mono_right _)

/-- C11, as stated, fails: an `isready` command posted to a freshly constructed bridge,
never preceded by `uci` and not yet acknowledged, sets `isReady` to true while the
consumer has received nothing and the `readyok` timer is still pending. -/
theorem StockfishBridge.isReady_before_readyok :
    (StockfishBridge.run (StockfishBridge.new.onMessage (some 1))
        [.postMessage "isready"]).1.isReady = true
      ∧ (StockfishBridge.run (StockfishBridge.new.onMessage (some 1))
        [.postMessage "isready"]).2 = []
      ∧ (StockfishBridge.run (StockfishBridge.new.onMessage (some 1))
        [.postMessage "isready"]).1.timers = [{ kind := .isready, delay := 100 }] := by
  decide

/-- C11, amended: the `isReady` flag of the bridge becomes true as soon as an `isready`
command is posted, whatever came before, and from construction it is true only after such
a command.  In every execution of a coordinator from construction the flag of its bridge
is true only once `uciok` has been delivered and `isready` posted, and it is the
coordinator's own `isReady` that is true only once both `uciok` and `readyok` have been
delivered. -/
theorem StockfishBridge.isReady_on_command {β : Type} (lib : ChessJs β)
    (b : StockfishBridge) (bevs : List BridgeEvent) (evs : List Event) :
    (b.postMessage "isready").isReady = true
      ∧ ((StockfishBridge.run StockfishBridge.new bevs).1.isReady = true →
          BridgeEvent.postMessage "isready" ∈ bevs)
      ∧ ((ChessAI.run lib (ChessAI.new lib) evs).1.stockfish.isReady = true →
          Output.message "uciok" ∈ (ChessAI.run lib (ChessAI.new lib) evs).2
            ∧ Output.posted "isready" ∈ (ChessAI.run lib (ChessAI.new lib) evs).2)
      ∧ ((ChessAI.run lib (ChessAI.new lib) evs).1.isReady = true →
          Output.message "uciok" ∈ (ChessAI.run lib (ChessAI.new lib) evs).2
            ∧ Output.message "readyok" ∈ (ChessAI.run lib (ChessAI.new lib) evs).2) := by
  refine ⟨rfl, ?_, ?_, ?_⟩
  · intro h
    rcases StockfishBridge.run_isReady bevs StockfishBridge.new h with h1 | h1
    · exact absurd h1 (by decide)
    · exact h1
  · intro h
    rcases ChessAI.run_bridge_isReady lib evs (ChessAI.new lib) h with h1 | h1
    · exact absurd h1 (by simp [ChessAI.new, StockfishBridge.new, StockfishBridge.onMessage])
    · exact h1
  · intro h
    have hinv := (ChessAI.Inv.new lib).run lib evs
    simp only [List.nil_append] at hinv
    exact hinv.ready h

theorem StockfishBridge.isReady_on_command_witness :
    Output.message "uciok" ∈ (ChessAI.run TableChess.lib (ChessAI.new TableChess.lib)
        [.init, .fire 0 ⟨0, by decide⟩ ⟨0, by decide⟩]).2
      ∧ Output.posted "isready" ∈ (ChessAI.run TableChess.lib (ChessAI.new TableChess.lib)
        [.init, .fire 0 ⟨0, by decide⟩ ⟨0, by decide⟩]).2 :=
  (StockfishBridge.isReady_on_command TableChess.lib StockfishBridge.new []
    [.init, .fire 0 ⟨0, by decide⟩ ⟨0, by decide⟩]).2.2.1 (by decide)

/-! ## One search at a time -/

theorem List.countP_eraseIdx_add {α : Type} (p : α → Bool) (l : List α) :
    ∀ (i : Nat) (t : α), l[i]? = some t →
      (l.eraseIdx i).countP p + (if p t then 1 else 0) = l.countP p := by
  induction l with
  | nil => intro i t h; simp at h
  | cons a l ih =>
    intro i t h
    cases i with
    | zero =>
      simp only [List.getElem?_cons_zero, Option.some.injEq] at h
      subst h
      simp [List.countP_cons]
    | succ j =>
      simp only [List.getElem?_cons_succ] at h
      have := ih j t h
      simp only [List.eraseIdx_cons_succ, List.countP_cons]
      omega

theorem searchLedger_none (l : List Output) : l.foldl searchLedger none = none := by
  induction l with
  | nil => rfl
  | cons o t ih => simpa [List.foldl, searchLedger] using ih

theorem searchLedger_neutral (extra : List Output) :
    ∀ st : Option Bool, (∀ o ∈ extra, o.isGo = false ∧ o.isInvocation = false) →
      extra.foldl searchLedger st = st := by
  induction extra with
  | nil => intro st _; rfl
  | cons o t ih =>
    intro st h
    obtain ⟨hg, hi⟩ := h o (List.mem_cons_self _ _)
    have hstep : searchLedger st o = st := by
      cases st with
      | none => rfl
      | some a => simp [searchLedger, hg, hi]
    rw [List.foldl_cons, hstep]
    exact ih st fun o' ho' => h o' (List.mem_cons_of_mem _ ho')

theorem searchLedger_answer (extra : List Output)
    (hgo : ∀ o ∈ extra, o.isGo = false) (hlen : extra.length ≤ 1) :
    ∃ pending, extra.foldl searchLedger (some true) = some pending := by
  match extra, hlen with
  | [], _ => exact ⟨true, rfl⟩
  | [o], _ =>
    have hg := hgo o (List.mem_cons_self _ _)
    cases hi : o.isInvocation
    · exact ⟨true, by simp [List.foldl, searchLedger, hg, hi]⟩
    · exact ⟨false, by simp [List.foldl, searchLedger, hg, hi]⟩

theorem Output.isGo_isSearch (o : Output) (h : o.isSearch = false) : o.isGo = false := by
  cases o with
  | posted command => simpa [Output.isSearch, Output.isGo] using h
  | message m => rfl
  | ready cb => rfl
  | bestMove cb move => rfl

theorem ChessAI.handleStockfishMessage_searchTimers {β : Type} (lib : ChessJs β)
    (s : ChessAI β) (message : String) (r : JS.Draw) :
    (ChessAI.handleStockfishMessage lib s message r).1.stockfish.searchTimers
      = s.stockfish.searchTimers := by
  rcases ChessAI.handleStockfishMessage_stockfish lib s message r with he | ⟨-, he, -⟩
  · rw [he]
  · rw [he]
    simp [StockfishBridge.searchTimers, StockfishBridge.postMessage,
      StockfishBridge.handleIsReady]

theorem ChessAI.handleStockfishMessage_length {β : Type} (lib : ChessJs β)
    (s : ChessAI β) (message : String) (r : JS.Draw) :
    (ChessAI.handleStockfishMessage lib s message r).2.length ≤ 1 := by
  unfold ChessAI.handleStockfishMessage ChessAI.post ChessAI.callBestMove
  simp only
  split_ifs with h1 h2 h3
  · simp
  · split <;> simp
  · split
    · split_ifs
      · split <;> simp
      · split
        · split <;> simp
        · simp
    · simp
  · simp

theorem ChessAI.handleStockfishMessage_quiet {β : Type} (lib : ChessJs β)
    (s : ChessAI β) (message : String) (r : JS.Draw)
    (h : JS.startsWith message "bestmove" = false) :
    (ChessAI.handleStockfishMessage lib s message r).1.isThinking = s.isThinking
      ∧ ∀ o ∈ (ChessAI.handleStockfishMessage lib s message r).2, o.isInvocation = false := by
  unfold ChessAI.handleStockfishMessage ChessAI.post
  simp only
  split_ifs with h1 h2 h3
  · exact ⟨rfl, by simp [Output.isInvocation]⟩
  · split
    · exact ⟨rfl, by simp [Output.isInvocation]⟩
    · exact ⟨rfl, by simp⟩
  · rw [h] at h3
    exact absurd h3 (by decide)
  · exact ⟨rfl, by simp⟩

theorem ChessAI.SearchInv.sendMessage_quiet {β : Type} (lib : ChessJs β) {s : ChessAI β}
    {out : List Output} (h : ChessAI.SearchInv s out) (message : String) (r : JS.Draw)
    (hq : JS.startsWith message "bestmove" = false) :
    ChessAI.SearchInv (ChessAI.sendMessage lib s message r).1
      (out ++ (ChessAI.sendMessage lib s message r).2) := by
  unfold ChessAI.sendMessage
  split
  · simp only
    have ht := ChessAI.handleStockfishMessage_searchTimers lib s message r
    obtain ⟨hth, hinv⟩ := ChessAI.handleStockfishMessage_quiet lib s message r hq
    obtain ⟨hsearch, -, -⟩ := ChessAI.handleStockfishMessage_effect lib s message r
    obtain ⟨a, ha, hap⟩ := h.ledger
    refine ⟨by rw [ht]; exact h.atMostOne, fun hp => ?_, a, ?_, fun hp => ?_⟩
    · rw [hth]
      exact h.thinking (by rw [← ht]; exact hp)
    · rw [List.foldl_append, ha]
      apply searchLedger_neutral
      intro o ho
      rcases List.mem_cons.mp ho with he | he
      · subst he
        exact ⟨rfl, rfl⟩
      · exact ⟨Output.isGo_isSearch o (hsearch o he), hinv o he⟩
    · exact hap (by rw [← ht]; exact hp)
  · simpa using h

theorem ChessAI.SearchInv.sendMessage_search {β : Type} (lib : ChessJs β) {s : ChessAI β}
    {out : List Output} (h : ChessAI.SearchInv s out) (message : String) (r : JS.Draw)
    (h0 : s.stockfish.searchTimers = 0)
    (hl : out.foldl searchLedger (some false) = some true) :
    ChessAI.SearchInv (ChessAI.sendMessage lib s message r).1
      (out ++ (ChessAI.sendMessage lib s message r).2) := by
  unfold ChessAI.sendMessage
  split
  · simp only
    have ht := ChessAI.handleStockfishMessage_searchTimers lib s message r
    rw [h0] at ht
    obtain ⟨hsearch, -, -⟩ := ChessAI.handleStockfishMessage_effect lib s message r
    obtain ⟨a, ha⟩ := searchLedger_answer (ChessAI.handleStockfishMessage lib s message r).2
      (fun o ho => Output.isGo_isSearch o (hsearch o ho))
      (ChessAI.handleStockfishMessage_length lib s message r)
    refine ⟨by rw [ht]; omega, fun hp => ?_, a, ?_, fun hp => ?_⟩
    · rw [ht] at hp
      omega
    · rw [List.foldl_append, hl, List.foldl_cons]
      exact ha
    · rw [ht] at hp
      omega
  · simpa using h

theorem ChessAI.SearchInv.sendAll_quiet {β : Type} (lib : ChessJs β) (r : JS.Draw)
    (msgs : List String) :
    ∀ {s : ChessAI β} {out : List Output}, ChessAI.SearchInv s out →
      (∀ m ∈ msgs, JS.startsWith m "bestmove" = false) →
      ChessAI.SearchInv (ChessAI.sendAll lib s r msgs).1
        (out ++ (ChessAI.sendAll lib s r msgs).2) := by
  induction msgs with
  | nil =>
    intro s out h _
    simpa [ChessAI.sendAll] using h
  | cons m ms ih =>
    intro s out h hm
    have h1 := h.sendMessage_quiet lib m r (hm m (List.mem_cons_self _ _))
    have h2 := ih h1 fun m' hm' => hm m' (List.mem_cons_of_mem _ hm')
    simpa [ChessAI.sendAll, List.append_assoc] using h2

theorem ChessAI.SearchInv.fire_kept {β : Type} (lib : ChessJs β) {s : ChessAI β}
    {out : List Output} (h : ChessAI.SearchInv s out) (i : Nat) (r1 r2 : JS.Draw) :
    ChessAI.SearchInv (ChessAI.fire lib s i r1 r2).1
      (out ++ (ChessAI.fire lib s i r1 r2).2) := by
  cases ht : s.stockfish.timers[i]? with
  | none => simpa [ChessAI.fire, ht] using h
  | some t =>
    simp only [ChessAI.fire, ht]
    have hcount := List.countP_eraseIdx_add (fun t : Timer => decide (t.kind = .go))
      s.stockfish.timers i t ht
    obtain ⟨a, ha, hap⟩ := h.ledger
    cases hk : t.kind with
    | uci =>
      simp only [hk] at hcount
      have herase : ChessAI.SearchInv
          { s with stockfish := { s.stockfish with timers := s.stockfish.timers.eraseIdx i } }
          out := by
        have he : StockfishBridge.searchTimers
            { s.stockfish with timers := s.stockfish.timers.eraseIdx i }
            = s.stockfish.searchTimers := by
          simp only [StockfishBridge.searchTimers]
          simpa using hcount
        exact ⟨by rw [he]; exact h.atMostOne, fun hp => h.thinking (by rw [← he]; exact hp),
          a, ha, fun hp => hap (by rw [← he]; exact hp)⟩
      apply herase.sendAll_quiet lib r2
      intro m hm
      simp only [StockfishBridge.timerMessages, List.mem_cons, List.mem_singleton,
        List.not_mem_nil, or_false] at hm
      rcases hm with rfl | rfl | rfl <;> decide
    | isready =>
      simp only [hk] at hcount
      have herase : ChessAI.SearchInv
          { s with stockfish := { s.stockfish with timers := s.stockfish.timers.eraseIdx i } }
          out := by
        have he : StockfishBridge.searchTimers
            { s.stockfish with timers := s.stockfish.timers.eraseIdx i }
            = s.stockfish.searchTimers := by
          simp only [StockfishBridge.searchTimers]
          simpa using hcount
        exact ⟨by rw [he]; exact h.atMostOne, fun hp => h.thinking (by rw [← he]; exact hp),
          a, ha, fun hp => hap (by rw [← he]; exact hp)⟩
      apply herase.sendAll_quiet lib r2
      intro m hm
      simp only [StockfishBridge.timerMessages, List.mem_singleton] at hm
      subst hm
      decide
    | go =>
      simp only [hk] at hcount
      have hone := h.atMostOne
      have he : StockfishBridge.searchTimers
          { s.stockfish with timers := s.stockfish.timers.eraseIdx i } = 0 := by
        simp only [StockfishBridge.searchTimers] at hone ⊢
        simp only [decide_True, if_true] at hcount
        omega
      have hpos : 0 < s.stockfish.searchTimers := by
        simp only [StockfishBridge.searchTimers]
        simp only [decide_True, if_true] at hcount
        omega
      have hopen : a = true := hap hpos
      subst hopen
      have herase : ChessAI.SearchInv
          { s with stockfish := { s.stockfish with timers := s.stockfish.timers.eraseIdx i } }
          out :=
        ⟨by rw [he]; omega, fun hp => by rw [he] at hp; omega, true, ha, fun _ => rfl⟩
      have hsend := herase.sendMessage_search lib
        ("bestmove " ++ StockfishBridge.render (StockfishBridge.calculateBestMove
          { s.stockfish with timers := s.stockfish.timers.eraseIdx i } r1)) r2 he ha
      simpa [StockfishBridge.timerMessages, ChessAI.sendAll] using hsend

theorem ChessAI.SearchInv.neutral {β : Type} {s s1 : ChessAI β} {out extra : List Output}
    (h : ChessAI.SearchInv s out)
    (ht : s1.stockfish.searchTimers = s.stockfish.searchTimers)
    (hth : s1.isThinking = s.isThinking)
    (hx : ∀ o ∈ extra, o.isGo = false ∧ o.isInvocation = false) :
    ChessAI.SearchInv s1 (out ++ extra) := by
  obtain ⟨a, ha, hap⟩ := h.ledger
  refine ⟨by rw [ht]; exact h.atMostOne, fun hp => ?_, a, ?_, fun hp => ?_⟩
  · rw [hth]
    exact h.thinking (by rw [← ht]; exact hp)
  · rw [List.foldl_append, ha]
    exact searchLedger_neutral extra _ hx
  · exact hap (by rw [← ht]; exact hp)

theorem ChessAI.post_position_searchTimers {β : Type} (s : ChessAI β) (x : String) :
    (ChessAI.post s ("position fen " ++ x)).1.stockfish.searchTimers
      = s.stockfish.searchTimers := by
  simp [ChessAI.post, StockfishBridge.searchTimers, StockfishBridge.postMessage_position,
    StockfishBridge.handlePosition_timers]

theorem ChessAI.SearchInv.post_position_kept {β : Type} {s : ChessAI β} {out : List Output}
    (h : ChessAI.SearchInv s out) (x : String) :
    ChessAI.SearchInv (ChessAI.post s ("position fen " ++ x)).1
      (out ++ (ChessAI.post s ("position fen " ++ x)).2) := by
  apply h.neutral (ChessAI.post_position_searchTimers s x) rfl
  intro o ho
  simp only [ChessAI.post, List.mem_singleton] at ho
  subst ho
  exact ⟨by simp [Output.isGo, JS.startsWith_position_go], rfl⟩

theorem ChessAI.SearchInv.step_kept {β : Type} (lib : ChessJs β) {s : ChessAI β}
    {out : List Output} (h : ChessAI.SearchInv s out) (e : Event) :
    ChessAI.SearchInv (ChessAI.step lib s e).1 (out ++ (ChessAI.step lib s e).2) := by
  cases e with
  | init =>
    apply h.neutral
    · simp [ChessAI.step, ChessAI.init, ChessAI.post, StockfishBridge.searchTimers,
        StockfishBridge.postMessage, StockfishBridge.handleUCI]
    · rfl
    · intro o ho
      simp only [ChessAI.step, ChessAI.init, ChessAI.post, List.mem_singleton] at ho
      subst ho
      exact ⟨by decide, rfl⟩
  | setSearchDepth depth =>
    have h1 : ChessAI.SearchInv (ChessAI.setSearchDepth s depth) out :=
      ⟨h.atMostOne, h.thinking, h.ledger⟩
    simpa [ChessAI.step] using h1
  | setPosition fen =>
    simp only [ChessAI.step]
    cases hl : lib.load fen with
    | none =>
      rw [ChessAI.setPosition_of_rejected lib s fen hl]
      simpa using h
    | some c =>
      rw [ChessAI.setPosition_of_accepted lib s fen c hl]
      have h1 : ChessAI.SearchInv { s with engine := { s.engine with chess := c } } out :=
        ⟨h.atMostOne, h.thinking, h.ledger⟩
      exact h1.post_position_kept fen
  | makeMove move =>
    simp only [ChessAI.step, ChessAI.makeMove]
    split
    · rename_i result e he
      have h1 : ChessAI.SearchInv { s with engine := e } out :=
        ⟨h.atMostOne, h.thinking, h.ledger⟩
      exact h1.post_position_kept _
    · rename_i e he
      have h1 : ChessAI.SearchInv { s with engine := e } out :=
        ⟨h.atMostOne, h.thinking, h.ledger⟩
      simpa using h1
  | getBestMove callback =>
    simp only [ChessAI.step, ChessAI.getBestMove]
    split_ifs with hc
    · simpa using h
    · have hth : s.isThinking = false := by
        cases hs : s.isThinking
        · rfl
        · simp [hs] at hc
      have h0 : s.stockfish.searchTimers = 0 := by
        by_contra hne
        have := h.thinking (Nat.pos_of_ne_zero hne)
        rw [hth] at this
        exact absurd this (by decide)
      obtain ⟨a, ha, -⟩ := h.ledger
      have hgo := JS.startsWith_go_depth (toString s.searchDepth)
      have ht : (ChessAI.post
          { s with callbacks := { s.callbacks with bestMove := callback }, isThinking := true }
          ("go depth " ++ toString s.searchDepth)).1.stockfish.searchTimers = 1 := by
        simp only [ChessAI.post, StockfishBridge.postMessage_go _ _ hgo,
          StockfishBridge.handleGo, StockfishBridge.searchTimers, List.countP_append]
        simp only [StockfishBridge.searchTimers] at h0
        simp [h0]
      refine ⟨by rw [ht], fun _ => rfl, true, ?_, fun _ => rfl⟩
      rw [List.foldl_append, ha]
      simp [ChessAI.post, List.foldl, searchLedger, Output.isGo, hgo]
  | reset =>
    simp only [ChessAI.step, ChessAI.reset]
    have h1 : ChessAI.SearchInv { s with engine := ChessEngine.reset lib s.engine } out :=
      ⟨h.atMostOne, h.thinking, h.ledger⟩
    exact h1.post_position_kept _
  | onReady callback =>
    have h1 : ChessAI.SearchInv { s with callbacks := { s.callbacks with ready := callback } }
        out := ⟨h.atMostOne, h.thinking, h.ledger⟩
    simp only [ChessAI.step, ChessAI.onReady]
    split_ifs
    · split
      · apply h1.neutral rfl rfl
        intro o ho
        simp only [List.mem_singleton] at ho
        subst ho
        exact ⟨rfl, rfl⟩
      · simpa using h1
    · simpa using h1
  | terminate =>
    have h1 : ChessAI.SearchInv (ChessAI.terminate s) out :=
      ⟨h.atMostOne, h.thinking, h.ledger⟩
    simpa [ChessAI.step] using h1
  | fire i r1 r2 => exact h.fire_kept lib i r1 r2

theorem ChessAI.SearchInv.run_kept {β : Type} (lib : ChessJs β) (evs : List Event) :
    ∀ {s : ChessAI β} {out : List Output}, ChessAI.SearchInv s out →
      ChessAI.SearchInv (ChessAI.run lib s evs).1 (out ++ (ChessAI.run lib s evs).2) := by
  induction evs with
  | nil =>
    intro s out h
    simpa [ChessAI.run] using h
  | cons e es ih =>
    intro s out h
    have h2 := ih (h.step_kept lib e)
    simpa [ChessAI.run, List.append_assoc] using h2

theorem ChessAI.SearchInv.at_construction {β : Type} (lib : ChessJs β) :
    ChessAI.SearchInv (ChessAI.new lib) [] := by
  refine ⟨?_, fun hp => ?_, false, rfl, fun hp => ?_⟩
  · simp [ChessAI.new, StockfishBridge.new, StockfishBridge.onMessage,
      StockfishBridge.searchTimers]
  · simp [ChessAI.new, StockfishBridge.new, StockfishBridge.onMessage,
      StockfishBridge.searchTimers] at hp
  · simp [ChessAI.new, StockfishBridge.new, StockfishBridge.onMessage,
      StockfishBridge.searchTimers] at hp

theorem searchLedger_pending (pre : List Output)
    (h : pre.foldl searchLedger (some false) = some true) :
    ∃ pre1 command mid, pre = pre1 ++ Output.posted command :: mid
      ∧ JS.startsWith command "go" = true ∧ ∀ o ∈ mid, o.isInvocation = false := by
  induction pre using List.reverseRecOn with
  | nil => simp at h
  | append_singleton l o ih =>
    rw [List.foldl_append, List.foldl_cons, List.foldl_nil] at h
    cases hst : l.foldl searchLedger (some false) with
    | none => simp [hst, searchLedger] at h
    | some a =>
      rw [hst] at h
      cases hg : o.isGo with
      | true =>
        cases o with
        | posted command => exact ⟨l, command, [], rfl, by simpa [Output.isGo] using hg, by simp⟩
        | message m => simp [Output.isGo] at hg
        | ready cb => simp [Output.isGo] at hg
        | bestMove cb move => simp [Output.isGo] at hg
      | false =>
        cases hi : o.isInvocation with
        | true =>
          cases a <;> simp [searchLedger, hg, hi] at h
        | false =>
          simp only [searchLedger, hg, hi, Bool.false_eq_true, if_false, Option.some.injEq] at h
          subst h
          obtain ⟨pre1, command, mid, hl, hc, hmid⟩ := ih hst
          refine ⟨pre1, command, mid ++ [o], by simp [hl], hc, ?_⟩
          intro o' ho'
          rcases List.mem_append.mp ho' with hm | hm
          · exact hmid o' hm
          · simp only [List.mem_singleton] at hm
            rw [hm]
            exact hi

theorem searchLedger_before_invocation (pre post : List Output) (cb : Callback)
    (move : MoveArg) (a : Bool)
    (h : (pre ++ Output.bestMove cb move :: post).foldl searchLedger (some false) = some a) :
    pre.foldl searchLedger (some false) = some true := by
  rw [List.foldl_append, List.foldl_cons] at h
  cases hst : pre.foldl searchLedger (some false) with
  | none =>
    rw [hst] at h
    simp [searchLedger, searchLedger_none] at h
  | some b =>
    cases b with
    | true => rfl
    | false =>
      rw [hst] at h
      simp [searchLedger, Output.isGo, Output.isInvocation, searchLedger_none] at h

/-- C19: in every execution of a coordinator from construction, driven by calls of its
methods and timer expiries, at most one search timer of the bridge is pending; one is
pending only while `isThinking` is true, so that `getBestMove` returns true, and a `go` is
issued, only when no search timer is pending; and every invocation of the best-move
callback answers a posted `go` that no other invocation has answered, so each
`getBestMove` call that returned true is followed by at most one invocation. -/
theorem ChessAI.one_search_at_a_time {β : Type} (lib : ChessJs β) (evs : List Event) :
    (ChessAI.run lib (ChessAI.new lib) evs).1.stockfish.searchTimers ≤ 1
      ∧ (0 < (ChessAI.run lib (ChessAI.new lib) evs).1.stockfish.searchTimers →
          (ChessAI.run lib (ChessAI.new lib) evs).1.isThinking = true)
      ∧ (∀ callback,
          (ChessAI.getBestMove (ChessAI.run lib (ChessAI.new lib) evs).1 callback).1 = true →
          (ChessAI.run lib (ChessAI.new lib) evs).1.stockfish.searchTimers = 0)
      ∧ (∀ pre cb move post,
          (ChessAI.run lib (ChessAI.new lib) evs).2 = pre ++ Output.bestMove cb move :: post →
          ∃ pre1 command mid, pre = pre1 ++ Output.posted command :: mid
            ∧ JS.startsWith command "go" = true
            ∧ ∀ cb1 move1, Output.bestMove cb1 move1 ∉ mid) := by
  have h := (ChessAI.SearchInv.at_construction lib).run_kept lib evs
  simp only [List.nil_append] at h
  refine ⟨h.atMostOne, h.thinking, ?_, ?_⟩
  · intro callback htrue
    by_contra hne
    have hth := h.thinking (Nat.pos_of_ne_zero hne)
    simp [ChessAI.getBestMove, hth] at htrue
  · intro pre cb move post hout
    obtain ⟨a, ha, -⟩ := h.ledger
    rw [hout] at ha
    obtain ⟨pre1, command, mid, hpre, hgo, hmid⟩ :=
      searchLedger_pending pre (searchLedger_before_invocation pre post cb move a ha)
    refine ⟨pre1, command, mid, hpre, hgo, ?_⟩
    intro cb1 move1 hmem
    have := hmid _ hmem
    simp [Output.isInvocation] at this

theorem ChessAI.one_search_at_a_time_witness :
    ∃ pre1 command mid,
      [Output.posted "uci", .message "id name Stockfish 17 Local",
        .message "id author The Stockfish Team", .message "uciok", .posted "isready",
        .message "readyok", .posted "go depth 15", .message "bestmove e2e4"]
        = pre1 ++ Output.posted command :: mid
      ∧ JS.startsWith command "go" = true
      ∧ ∀ cb1 move1, Output.bestMove cb1 move1 ∉ mid :=
  (ChessAI.one_search_at_a_time TableChess.lib
    [.init, .fire 0 ⟨0, by decide⟩ ⟨0, by decide⟩, .fire 0 ⟨0, by decide⟩ ⟨0, by decide⟩,
     .getBestMove (some 7), .getBestMove (some 8),
     .fire 0 ⟨0, by decide⟩ ⟨0, by decide⟩]).2.2.2
    [Output.posted "uci", .message "id name Stockfish 17 Local",
      .message "id author The Stockfish Team", .message "uciok", .posted "isready",
      .message "readyok", .posted "go depth 15", .message "bestmove e2e4"]
    7 (.str "e2e4") [] (by decide)
